import Mathlib

/-!
# blaze TaskManager: a shallow embedding of `manager/src/TaskManager.cpp`

The manager is modelled as a record of its members plus the heap of Task
objects it reaches through `Task*` pointers.  Every member function becomes a
function from a manager state to an `Outcome` (or to a value and a state).

Conventions of the model:

* A C++ `int` is an integer of the range -2147483648 .. 2147483647.  Every
  addition and subtraction the code performs on `int` values, on the atomic
  counters as on plain variables, wraps around modulo 2^32 (`wrapInt`), as it
  does on the two's complement machines the code runs on.
* One call runs at a time (a sequential interleaving of the caller, Scheduler
  and Executor threads).  A sleep loop whose condition cannot change without
  another thread is the outcome `blocked`.
* Values produced outside the file (`rand()`, the wall clock, the allocator,
  the task factory) are parameters of the call that consumes them.
* Logging is not modelled.
-/

namespace blaze

/-! ## Tasks -/

/-- Address of a Task object, the value of a C++ `Task*`. -/
abbrev TaskPtr := Nat

/-- Modelled from the spec: the status values of a Task (Task.h is not among
the sources; the code only names `Task::FINISHED`). -/
inductive Status where
  | NEW
  | READY
  | SCHEDULED
  | RUNNING
  | FINISHED
  | FAILED
  deriving DecidableEq, Repr

/-- Modelled from the spec: what the caller-supplied execution routine of a
task does when it is called (Task.h is not among the sources).  It returns
normally leaving a status behind, raises a `std::runtime_error`, or raises an
exception of another type. -/
inductive ExecBehaviour where
  | finishes (st : Status)
  | raisesRuntime
  | raisesOther
  deriving DecidableEq, Repr

/-- Modelled from the spec: the Task capability set (Task.h is not among the
sources).  `task_id`, `status`, `estimated_time` and `env` are the fields the
manager reads and writes.  `ready` is the answer of `isReady()`.  The task's
own estimation routine may answer differently on every call: `estimates n` is
its answer to call number `n`, and `estimateCalls` counts the calls made so
far.  `onExecute` is the behaviour of the task's execution routine. -/
structure Task where
  task_id : Int
  status : Status
  estimated_time : Int
  env : Nat
  ready : Bool
  estimates : Nat → Int
  estimateCalls : Nat
  onExecute : ExecBehaviour

/-- Modelled from the spec: `Task::isReady()`, the readiness capability check. -/
def Task.isReady (t : Task) : Bool :=
  t.ready

/-- Modelled from the spec: `Task::estimateTime()`, the task's own estimation
routine; the answer and the task after the call. -/
def Task.estimateTime (t : Task) : Int × Task :=
  (t.estimates t.estimateCalls, { t with estimateCalls := t.estimateCalls + 1 })

/-- How a call of the task's execution routine ends, with the task after it. -/
inductive ExecResult where
  | normal (t : Task)
  | runtime_error (t : Task)
  | other_exception (t : Task)

/-- Modelled from the spec: `Task::execute()`, which may raise a runtime
failure. -/
def Task.execute (t : Task) : ExecResult :=
  match t.onExecute with
  | .finishes st => .normal { t with status := st }
  | .raisesRuntime => .runtime_error t
  | .raisesOther => .other_exception t

/-! ## Queues -/

/-- Modelled from the spec: TaskQueue (TaskQueue.h is not among the sources),
a bounded FIFO of task handles; the head of the list is the oldest entry. -/
abbrev TaskQueue := List TaskPtr

/-- Modelled from the spec: `TaskQueue::empty()`. -/
def TaskQueue.empty (q : TaskQueue) : Bool :=
  q.isEmpty

/-- Modelled from the spec: `TaskQueue::push`, a non-blocking attempt that
answers false, leaving the queue alone, when the queue is at capacity. -/
def TaskQueue.push (capacity : Nat) (q : TaskQueue) (task : TaskPtr) : Bool × TaskQueue :=
  if q.length < capacity then (true, q ++ [task]) else (false, q)

/-- Modelled from the spec: `TaskQueue::pop`, which hands out the oldest entry;
`none` on an empty queue, where the C++ caller is left with an unset pointer. -/
def TaskQueue.pop (q : TaskQueue) : Option (TaskPtr × TaskQueue) :=
  match q with
  | [] => none
  | task :: rest => some (task, rest)

/-- The `std::map<std::string, TaskQueue_ptr>`: entries in key order. -/
abbrev AppQueues := List (String × TaskQueue)

/-- The queue stored under a key: `app_queues.find(k)`, `none` for `end()`. -/
def findQueue (m : AppQueues) (k : String) : Option TaskQueue :=
  match m with
  | [] => none
  | (k1, q1) :: rest => if k1 = k then some q1 else findQueue rest k

/-- The `app_queues.insert(std::make_pair(k, q))` of std::map: the entry goes
to its place in key order (std::string compares character by character), and
an existing entry for the key is kept. -/
def insertQueue (m : AppQueues) (k : String) (q : TaskQueue) : AppQueues :=
  match m with
  | [] => [(k, q)]
  | (k1, q1) :: rest =>
    if k.data < k1.data then (k, q) :: (k1, q1) :: rest
    else if k1 = k then (k1, q1) :: rest
    else (k1, q1) :: insertQueue rest k q

/-- A write through the `TaskQueue_ptr` stored under a key: the queue object of
that entry now holds `q`. -/
def assignQueue (m : AppQueues) (k : String) (q : TaskQueue) : AppQueues :=
  match m with
  | [] => []
  | (k1, q1) :: rest =>
    if k1 = k then (k1, q) :: rest else (k1, q1) :: assignQueue rest k q

/-- The locate-or-create step of enqueue: if `find` answers `end()`, a new
empty TaskQueue is inserted under the key; otherwise the map is left alone. -/
def ensureQueue (m : AppQueues) (k : String) : AppQueues :=
  match findQueue m k with
  | none => insertQueue m k []
  | some _ => m

/-! ## The manager -/

/-- The members of TaskManager that `TaskManager.cpp` uses, and the heap of
Task objects.  `queueCapacity` is modelled from the spec: the capacity of a
TaskQueue (TaskQueue.h is not among the sources). -/
structure TaskManager where
  app_queues : AppQueues
  execution_queue : TaskQueue
  exeQueueLength : Int
  nextTaskId : Int
  lobbyWaitTime : Int
  doorWaitTime : Int
  deltaDelay : Int
  queueCapacity : Nat
  heap : TaskPtr → Task

/-- Modelled from the spec: a fresh manager (the constructor is in
TaskManager.h, not among the sources): the counters are zero and there is no
queue. -/
def TaskManager.fresh (deltaDelay : Int) (queueCapacity : Nat) (heap : TaskPtr → Task) :
    TaskManager :=
  { app_queues := []
    execution_queue := []
    exeQueueLength := 0
    nextTaskId := 0
    lobbyWaitTime := 0
    doorWaitTime := 0
    deltaDelay := deltaDelay
    queueCapacity := queueCapacity
    heap := heap }

/-- A write to the Task object at an address. -/
def TaskManager.store (s : TaskManager) (task : TaskPtr) (t : Task) : TaskManager :=
  { s with heap := fun p => if p = task then t else s.heap p }

/-- The value a 32-bit two's complement `int` holds when the mathematical
result of an operation is `x`: the representative of `x` modulo 2^32 in the
range -2147483648 .. 2147483647. -/
def wrapInt (x : Int) : Int :=
  (x + 2147483648) % 4294967296 - 2147483648

/-- Whether an integer lies in the range of a 32-bit `int`. -/
def fitsInt (x : Int) : Prop :=
  -2147483648 ≤ x ∧ x ≤ 2147483647

instance fitsInt.decidable (x : Int) : Decidable (fitsInt x) :=
  inferInstanceAs (Decidable (-2147483648 ≤ x ∧ x ≤ 2147483647))

/-- The `fetch_add` of an atomic `int`: the value it answers (the one held
before) and the value held afterwards, which wraps around. -/
def fetch_add (held arg : Int) : Int × Int :=
  (held, wrapInt (held + arg))

/-- The `fetch_sub` of an atomic `int`: the value it answers (the one held
before) and the value held afterwards, which wraps around. -/
def fetch_sub (held arg : Int) : Int × Int :=
  (held, wrapInt (held - arg))

/-- How a call of a member function ends.  `returned`: it returns normally.
`threw`: it leaves by an exception.  `blocked`: it never returns, sleeping in a
loop whose condition no longer changes.  `undefined`: it reads an unset
pointer or an element out of bounds. -/
inductive Outcome where
  | returned (s : TaskManager)
  | threw (what : String) (s : TaskManager)
  | blocked (s : TaskManager)
  | undefined

/-- `TaskManager::getExeQueueLength`. -/
def TaskManager.getExeQueueLength (s : TaskManager) : Int :=
  s.exeQueueLength

/-- `TaskManager::estimateTime`: the value returned and the state afterwards. -/
def TaskManager.estimateTime (s : TaskManager) (task : TaskPtr) : Int × TaskManager :=
  if (s.heap task).estimated_time > 0 then
    ((s.heap task).estimated_time, s)
  else
    let own := (s.heap task).estimateTime
    let task_delay := own.1
    let ret_delay : Int :=
      if task_delay ≤ 0 then 100000 else wrapInt (task_delay + s.deltaDelay)
    (ret_delay, s.store task { own.2 with estimated_time := ret_delay })

/-- `TaskManager::updateDelayModel`: an empty body. -/
def TaskManager.updateDelayModel (s : TaskManager) (_task : TaskPtr)
    (_estimateTime : Int) (_realTime : Nat) : TaskManager :=
  s

/-- `TaskManager::create`.  `made` is the object the factory `createTask()`
built, `addr` its address, `env` the handle `platform->getEnv(acc_id)` gave. -/
def TaskManager.create (s : TaskManager) (made : Task) (addr : TaskPtr) (env : Nat) :
    TaskPtr × TaskManager :=
  let s1 := s.store addr made
  let s2 := s1.store addr { s1.heap addr with env := env }
  let id := fetch_add s2.nextTaskId 1
  let s3 := { s2 with nextTaskId := id.2 }
  (addr, s3.store addr { s3.heap addr with task_id := id.1 })

/-- `TaskManager::enqueue`. -/
def TaskManager.enqueue (s : TaskManager) (app_id : String) (task : TaskPtr) : Outcome :=
  if !(s.heap task).isReady then
    .threw "Cannot enqueue task that is not ready" s
  else
    -- create a new app queue if it does not exist
    let s1 := { s with app_queues := ensureQueue s.app_queues app_id }
    let queue := (findQueue s1.app_queues app_id).getD []
    -- once called, the task estimation time will stored
    let est := s1.estimateTime task
    let delay_time := est.1
    let s2 := est.2
    -- push task to queue
    let pushed := TaskQueue.push s2.queueCapacity queue task
    if !pushed.1 then
      -- every retry repeats the same failed push
      .blocked s2
    else
      let s3 := { s2 with app_queues := assignQueue s2.app_queues app_id pushed.2 }
      -- update lobby wait time
      let s4 := { s3 with lobbyWaitTime := (fetch_add s3.lobbyWaitTime delay_time).2 }
      -- update door wait time
      .returned { s4 with doorWaitTime := (fetch_sub s4.doorWaitTime delay_time).2 }

/-- The scan of `schedule`: the keys, in map order, of the non-empty queues. -/
def readyQueues (m : AppQueues) : List String :=
  (m.filter (fun kv => !TaskQueue.empty kv.2)).map Prod.fst

/-- `TaskManager::schedule`; `rnd` is the value `rand()` returns. -/
def TaskManager.schedule (s : TaskManager) (rnd : Nat) : Outcome :=
  let ready_queues := readyQueues s.app_queues
  if ready_queues.isEmpty then
    -- the scan finds nothing, however often it is repeated
    .blocked s
  else
    let idx_next := rnd % ready_queues.length
    match ready_queues[idx_next]? with
    | none => .undefined
    | some app =>
      match findQueue s.app_queues app with
      | none => .returned s
      | some q =>
        match TaskQueue.pop q with
        | none => .undefined
        | some (next_task, rest) =>
          let s1 := { s with app_queues := assignQueue s.app_queues app rest }
          let s2 := { s1 with
            execution_queue := (TaskQueue.push s1.queueCapacity s1.execution_queue next_task).2 }
          -- atomically increase the length of the task queue
          .returned { s2 with exeQueueLength := (fetch_add s2.exeQueueLength 1).2 }

/-- `TaskManager::popReady`: whether a task was popped, the task, the state. -/
def TaskManager.popReady (s : TaskManager) : Option TaskPtr × TaskManager :=
  match TaskQueue.pop s.execution_queue with
  | none => (none, s)
  | some (task, rest) => (some task, { s with execution_queue := rest })

/-- `TaskManager::execute`; `delay_time` is the measured duration in
microseconds. -/
def TaskManager.execute (s : TaskManager) (delay_time : Nat) : Outcome :=
  match TaskQueue.pop s.execution_queue with
  | none =>
    -- wait if there is no task to be executed
    .blocked s
  | some (task, rest) =>
    let s1 := { s with execution_queue := rest }
    let est := s1.estimateTime task
    let delay_estimate := est.1
    let s2 := est.2
    match (s2.heap task).execute with
    | .runtime_error t =>
      -- caught: "Task error"
      .returned (s2.store task t)
    | .other_exception t =>
      .threw "exception not derived from std::runtime_error" (s2.store task t)
    | .normal t =>
      let s3 := s2.store task t
      -- if the task is successful, update delay estimation model
      let s4 :=
        if (s3.heap task).status = Status.FINISHED then
          s3.updateDelayModel task delay_estimate delay_time
        else s3
      -- decrease the waittime, use the recorded estimation
      let s5 := { s4 with lobbyWaitTime := (fetch_sub s4.lobbyWaitTime delay_estimate).2 }
      -- decrease the length of the execution queue
      .returned { s5 with exeQueueLength := (fetch_sub s5.exeQueueLength 1).2 }

/-- `TaskManager::getWaitTime`: the pair returned and the state afterwards. -/
def TaskManager.getWaitTime (s : TaskManager) (task : TaskPtr) : (Int × Int) × TaskManager :=
  let est := s.estimateTime task
  -- increment door with current task time
  let door := fetch_add est.2.doorWaitTime est.1
  let currDoorWaitTime := door.1
  let s1 := { est.2 with doorWaitTime := door.2 }
  let currLobbyWaitTime := s1.lobbyWaitTime
  ((currLobbyWaitTime, wrapInt (currLobbyWaitTime + currDoorWaitTime)), s1)

/-! ## Runs -/

/-- One call made on the manager by the caller, the Scheduler or the Executor. -/
inductive Action where
  | enqueue (app_id : String) (task : TaskPtr)
  | schedule (rnd : Nat)
  | execute (delay_time : Nat)
  | getWaitTime (task : TaskPtr)

/-- The state after a call that returned normally. -/
def Outcome.next (o : Outcome) : Option TaskManager :=
  match o with
  | .returned s => some s
  | _ => none

/-- The state after one call, if the call returns. -/
def TaskManager.step (s : TaskManager) (a : Action) : Option TaskManager :=
  match a with
  | .enqueue app_id task => (s.enqueue app_id task).next
  | .schedule rnd => (s.schedule rnd).next
  | .execute delay_time => (s.execute delay_time).next
  | .getWaitTime task => some (s.getWaitTime task).2

/-- The state after a sequence of calls, every one of which returns. -/
def TaskManager.run (s : TaskManager) (acts : List Action) : Option TaskManager :=
  match acts with
  | [] => some s
  | a :: more =>
    match s.step a with
    | none => none
    | some s1 => s1.run more

/-- The queue of an application, empty when the application has none. -/
def TaskManager.queueOf (s : TaskManager) (app_id : String) : TaskQueue :=
  (findQueue s.app_queues app_id).getD []

/-- The application and the task that `schedule` selects for the value `rnd`
of `rand()`: the same scan, index and head-of-queue lookup as in `schedule`. -/
def TaskManager.scheduleChoice (s : TaskManager) (rnd : Nat) : Option (String × TaskPtr) :=
  let ready_queues := readyQueues s.app_queues
  match ready_queues[rnd % ready_queues.length]? with
  | none => none
  | some app =>
    match findQueue s.app_queues app with
    | none => none
    | some q =>
      match TaskQueue.pop q with
      | none => none
      | some (next_task, _) => some (app, next_task)

/-- A run of Scheduler iterations, one per value of `rand()`, with the record
of what each iteration took out of which application queue.  The run ends at
an iteration that does not return. -/
def TaskManager.runSchedule (s : TaskManager) (rnds : List Nat) :
    List (String × TaskPtr) × TaskManager :=
  match rnds with
  | [] => ([], s)
  | rnd :: more =>
    match s.schedule rnd with
    | .returned s1 =>
      ((s.scheduleChoice rnd).toList ++ (s1.runSchedule more).1, (s1.runSchedule more).2)
    | _ => ([], s)

/-- The tasks a record says were taken out of the queue of one application, in
the order they were taken. -/
def movedFrom (app_id : String) (record : List (String × TaskPtr)) : List TaskPtr :=
  (record.filter (fun e => e.1 = app_id)).map Prod.snd

/-- Reference definition of the estimator, after the words of the
specification: a positive cached estimate is returned and the task is left
alone; otherwise the task's own routine is asked, a non-positive answer gives
the constant default 100000, a positive answer `d` gives `d + deltaDelay`, and
the result is stored on the task. -/
def estimateSpec (deltaDelay : Int) (t : Task) : Int × Task :=
  if 0 < t.estimated_time then (t.estimated_time, t)
  else
    let d := t.estimateTime.1
    if d ≤ 0 then (100000, { t.estimateTime.2 with estimated_time := 100000 })
    else (d + deltaDelay, { t.estimateTime.2 with estimated_time := d + deltaDelay })

/-! ## Concrete inputs -/

/-- A task whose own routine answers `first + stride * n` to call number `n`. -/
def sampleTask (cached first stride : Int) (ready : Bool) (onExecute : ExecBehaviour) : Task :=
  { task_id := 0
    status := Status.READY
    estimated_time := cached
    env := 0
    ready := ready
    estimates := fun n => first + stride * n
    estimateCalls := 0
    onExecute := onExecute }

/-- A fresh manager (deltaDelay 0, queues of capacity 256) over a heap in which
every task is ready, carries the caller-supplied estimate 100 and finishes. -/
def freshHundred : TaskManager :=
  TaskManager.fresh 0 256 (fun _ => sampleTask 100 0 0 true (.finishes .FINISHED))

/-- A fresh manager (deltaDelay 0, queues of capacity 256) over a heap in which
task 0 is ready, carries the estimate 100 and has an execution routine that
raises a `std::runtime_error`, and every other task is ready, carries the
estimate 50 and finishes. -/
def freshRaising : TaskManager :=
  TaskManager.fresh 0 256 (fun p =>
    if p = 0 then sampleTask 100 0 0 true .raisesRuntime
    else sampleTask 50 0 0 true (.finishes .FINISHED))

/-- The counters and queues of a state, for inspection. -/
def TaskManager.summary (s : TaskManager) :
    List (String × List Nat) × List Nat × Int × Int × Int :=
  (s.app_queues, s.execution_queue, s.exeQueueLength, s.lobbyWaitTime, s.doorWaitTime)

/-- The manager `freshRaising` after task 0 (whose routine raises) was
enqueued to "A" and scheduled, and the healthy task 1 was enqueued to "B". -/
def failureSetup : TaskManager :=
  (freshRaising.run [.enqueue "A" 0, .schedule 0, .enqueue "B" 1]).getD freshRaising

/-- The manager `freshHundred` after tasks 1 and 2 were enqueued, in this
order, to "A", with task 3 enqueued to "B" in between. -/
def fifoSetup : TaskManager :=
  (freshHundred.run [.enqueue "A" 1, .enqueue "B" 3, .enqueue "A" 2]).getD freshHundred

/-! ## Held tasks, well-formed maps, longer runs -/

/-- The tasks waiting in the application queues, queue after queue in map
order. -/
def queuedTasks (m : AppQueues) : List TaskPtr :=
  match m with
  | [] => []
  | (_, q) :: rest => q ++ queuedTasks rest

/-- The tasks currently held by the manager: those in the AppQueues followed
by those in the ExecutionQueue. -/
def TaskManager.held (s : TaskManager) : List TaskPtr :=
  queuedTasks s.app_queues ++ s.execution_queue

/-- The sum of the cached `estimated_time` of the tasks in a list. -/
def estimateSum (heap : TaskPtr → Task) (tasks : List TaskPtr) : Int :=
  (tasks.map (fun p => (heap p).estimated_time)).sum

/-- The sum of the cached `estimated_time` of all tasks currently held. -/
def TaskManager.heldEstimate (s : TaskManager) : Int :=
  estimateSum s.heap s.held

/-- The invariant of std::map: no key occurs twice. -/
def keysDistinct (m : AppQueues) : Bool :=
  match m with
  | [] => true
  | (k, _) :: rest => !(rest.map Prod.fst).contains k && keysDistinct rest

/-- Whether the estimate a call computes is positive: the one enqueue and
getWaitTime compute for their argument, and the one execute computes for the
task it pops. -/
def TaskManager.positiveEstimate (s : TaskManager) (a : Action) : Bool :=
  match a with
  | .enqueue _ task => decide (0 < (s.estimateTime task).1)
  | .getWaitTime task => decide (0 < (s.estimateTime task).1)
  | .execute _ =>
    (match s.execution_queue with
      | [] => true
      | task :: _ => decide (0 < (s.estimateTime task).1))
  | .schedule _ => true

/-- Whether every estimate computed along a run is positive. -/
def TaskManager.positiveEstimates (s : TaskManager) (acts : List Action) : Bool :=
  match acts with
  | [] => true
  | a :: more =>
    s.positiveEstimate a &&
    (match s.step a with
      | none => true
      | some s1 => s1.positiveEstimates more)

/-- Whether the addition a call makes to lobbyWaitTime (in enqueue) or to
exeQueueLength (in schedule) stays within the largest `int`. -/
def TaskManager.counterFits (s : TaskManager) (a : Action) : Bool :=
  match a with
  | .enqueue _ task => decide (s.lobbyWaitTime + (s.estimateTime task).1 ≤ 2147483647)
  | .schedule _ => decide (s.exeQueueLength + 1 ≤ 2147483647)
  | .execute _ => true
  | .getWaitTime _ => true

/-- Whether no addition to lobbyWaitTime or to exeQueueLength along a run
exceeds the largest `int`. -/
def TaskManager.countersFit (s : TaskManager) (acts : List Action) : Bool :=
  match acts with
  | [] => true
  | a :: more =>
    s.counterFits a &&
    (match s.step a with
      | none => true
      | some s1 => s1.countersFit more)

/-- A call on the manager: `create`, or one of the calls of `Action`. -/
inductive Call where
  | create (made : Task) (addr : TaskPtr) (env : Nat)
  | other (a : Action)

/-- The task ids that the `create` calls of a sequence of calls assign, in call
order.  The sequence ends at a call that does not return. -/
def TaskManager.createLog (s : TaskManager) (calls : List Call) : List Int :=
  match calls with
  | [] => []
  | .create made addr env :: more =>
    ((s.create made addr env).2.heap (s.create made addr env).1).task_id ::
      (s.create made addr env).2.createLog more
  | .other a :: more =>
    match s.step a with
    | none => []
    | some s1 => s1.createLog more

/-- The number of `create` calls in a sequence of calls. -/
def creates (calls : List Call) : Nat :=
  match calls with
  | [] => 0
  | .create _ _ _ :: more => creates more + 1
  | .other _ :: more => creates more

/-- A fresh manager with deltaDelay -10 (queues of capacity 256) over a heap
of ready, unestimated tasks whose own routine answers 5, then 7, then 9, and
whose execution routine finishes. -/
def freshNegative : TaskManager :=
  TaskManager.fresh (-10) 256 (fun _ => sampleTask 0 5 2 true (.finishes .FINISHED))

/-- A fresh manager (deltaDelay 0) whose queues have capacity 1, over a heap in
which every task is ready, carries the estimate 100 and finishes. -/
def freshTiny : TaskManager :=
  TaskManager.fresh 0 1 (fun _ => sampleTask 100 0 0 true (.finishes .FINISHED))

/-- A fresh manager (deltaDelay 0, queues of capacity 256) over a heap in which
every task is ready, carries the estimate 2000000000 and finishes. -/
def freshBig : TaskManager :=
  TaskManager.fresh 0 256 (fun _ => sampleTask 2000000000 0 0 true (.finishes .FINISHED))

/-- A fresh manager with deltaDelay 1 (queues of capacity 256) over a heap of
ready, unestimated tasks whose own routine always answers 2147483647, the
largest `int`. -/
def freshEdge : TaskManager :=
  TaskManager.fresh 1 256 (fun _ => sampleTask 0 2147483647 0 true (.finishes .FINISHED))

/-- A fresh manager with deltaDelay 1 (queues of capacity 256) over a heap of
ready, unestimated tasks whose own routine answers 2147483647, then
2147483646, one less on every call, and whose execution routine finishes. -/
def freshEdgeDown : TaskManager :=
  TaskManager.fresh 1 256 (fun _ => sampleTask 0 2147483647 (-1) true (.finishes .FINISHED))

/-- A fresh manager (deltaDelay 0) whose queues have capacity 2, over a heap in
which every task is ready, carries the estimate 100 and finishes. -/
def freshPair : TaskManager :=
  TaskManager.fresh 0 2 (fun _ => sampleTask 100 0 0 true (.finishes .FINISHED))

/-! ## Wrap-around arithmetic -/

theorem wrapInt_of_fits (x : Int) (h : fitsInt x) : wrapInt x = x := by
  unfold fitsInt at h
  unfold wrapInt
  omega

theorem fitsInt_wrapInt (x : Int) : fitsInt (wrapInt x) := by
  unfold fitsInt wrapInt
  omega

theorem wrapInt_wrapInt (x : Int) : wrapInt (wrapInt x) = wrapInt x := by
  unfold wrapInt
  omega

theorem wrapInt_sub_left (x y : Int) : wrapInt (wrapInt x - y) = wrapInt (x - y) := by
  unfold wrapInt
  omega

theorem wrapInt_add_wrapInt (x y : Int) :
    wrapInt (wrapInt x + wrapInt y) = wrapInt (x + y) := by
  unfold wrapInt
  omega

/-! ## The estimator -/

theorem estimateTime_lobby (s : TaskManager) (task : TaskPtr) :
    (s.estimateTime task).2.lobbyWaitTime = s.lobbyWaitTime := by
  unfold TaskManager.estimateTime
  split <;> rfl

theorem estimateTime_door (s : TaskManager) (task : TaskPtr) :
    (s.estimateTime task).2.doorWaitTime = s.doorWaitTime := by
  unfold TaskManager.estimateTime
  split <;> rfl

theorem estimateTime_app_queues (s : TaskManager) (task : TaskPtr) :
    (s.estimateTime task).2.app_queues = s.app_queues := by
  unfold TaskManager.estimateTime
  split <;> rfl

theorem estimateTime_execution_queue (s : TaskManager) (task : TaskPtr) :
    (s.estimateTime task).2.execution_queue = s.execution_queue := by
  unfold TaskManager.estimateTime
  split <;> rfl

theorem estimateTime_exeQueueLength (s : TaskManager) (task : TaskPtr) :
    (s.estimateTime task).2.exeQueueLength = s.exeQueueLength := by
  unfold TaskManager.estimateTime
  split <;> rfl

theorem estimateTime_queueCapacity (s : TaskManager) (task : TaskPtr) :
    (s.estimateTime task).2.queueCapacity = s.queueCapacity := by
  unfold TaskManager.estimateTime
  split <;> rfl

theorem estimateTime_deltaDelay (s : TaskManager) (task : TaskPtr) :
    (s.estimateTime task).2.deltaDelay = s.deltaDelay := by
  unfold TaskManager.estimateTime
  split <;> rfl

theorem estimateTime_nextTaskId (s : TaskManager) (task : TaskPtr) :
    (s.estimateTime task).2.nextTaskId = s.nextTaskId := by
  unfold TaskManager.estimateTime
  split <;> rfl

/-- The estimator reads only the heap and deltaDelay. -/
theorem estimateTime_congr (s s1 : TaskManager) (task : TaskPtr)
    (hh : s1.heap = s.heap) (hd : s1.deltaDelay = s.deltaDelay) :
    (s1.estimateTime task).1 = (s.estimateTime task).1 ∧
    (s1.estimateTime task).2.heap = (s.estimateTime task).2.heap := by
  unfold TaskManager.estimateTime TaskManager.store
  simp only [hh, hd]
  split <;> simp [hh]

/-- A positive result is cached: the next call returns it and changes nothing. -/
theorem estimateTime_again (s : TaskManager) (task : TaskPtr)
    (hpos : 0 < (s.estimateTime task).1) :
    (s.estimateTime task).2.estimateTime task = ((s.estimateTime task).1, (s.estimateTime task).2) := by
  have key : 0 < ((s.estimateTime task).2.heap task).estimated_time ∧
      ((s.estimateTime task).2.heap task).estimated_time = (s.estimateTime task).1 := by
    revert hpos
    unfold TaskManager.estimateTime TaskManager.store
    split
    · intro _; simp_all
    · intro h; simp_all
  generalize (s.estimateTime task).2 = s1 at key
  generalize (s.estimateTime task).1 = e at key
  obtain ⟨k1, k2⟩ := key
  unfold TaskManager.estimateTime
  rw [if_pos k1, k2]

/-- When the cached estimate of a task is positive, the estimator returns it
and changes nothing. -/
theorem estimateTime_cached (s : TaskManager) (task : TaskPtr)
    (h : 0 < (s.heap task).estimated_time) :
    s.estimateTime task = ((s.heap task).estimated_time, s) := by
  unfold TaskManager.estimateTime
  simp [h]

/-- After the estimator has run on a task, the cached estimate of the task is
the value returned. -/
theorem estimateTime_stored (s : TaskManager) (task : TaskPtr) :
    ((s.estimateTime task).2.heap task).estimated_time = (s.estimateTime task).1 := by
  unfold TaskManager.estimateTime
  split
  · rfl
  · simp [TaskManager.store]

/-- The estimator changes the cached estimate of no other task. -/
theorem estimateTime_est_other (s : TaskManager) (task p : TaskPtr) (hp : p ≠ task) :
    ((s.estimateTime task).2.heap p).estimated_time = (s.heap p).estimated_time := by
  unfold TaskManager.estimateTime TaskManager.store
  split
  · rfl
  · simp [hp]

/-- The estimator changes no cached estimate that is positive. -/
theorem estimateTime_est_pos (s : TaskManager) (task p : TaskPtr)
    (h : 0 < (s.heap p).estimated_time) :
    ((s.estimateTime task).2.heap p).estimated_time = (s.heap p).estimated_time := by
  by_cases hp : p = task
  · subst hp
    rw [estimateTime_cached s p h]
  · exact estimateTime_est_other s task p hp

theorem estimateTime_with_app_queues (s : TaskManager) (m : AppQueues) (task : TaskPtr) :
    ({ s with app_queues := m }.estimateTime task).2 =
      { (s.estimateTime task).2 with app_queues := m } := by
  unfold TaskManager.estimateTime
  split <;> rfl

theorem estimateTime_with_execution_queue (s : TaskManager) (q : TaskQueue) (task : TaskPtr) :
    ({ s with execution_queue := q }.estimateTime task) =
      ((s.estimateTime task).1, { (s.estimateTime task).2 with execution_queue := q }) := by
  unfold TaskManager.estimateTime
  split <;> rfl

theorem estimateTime_with_doorWaitTime (s : TaskManager) (d : Int) (task : TaskPtr) :
    ({ s with doorWaitTime := d }.estimateTime task) =
      ((s.estimateTime task).1, { (s.estimateTime task).2 with doorWaitTime := d }) := by
  unfold TaskManager.estimateTime
  split <;> rfl

/-- The estimator leaves the behaviour, readiness and status of every task. -/
theorem estimateTime_heap_frame (s : TaskManager) (task p : TaskPtr) :
    ((s.estimateTime task).2.heap p).onExecute = (s.heap p).onExecute ∧
    ((s.estimateTime task).2.heap p).ready = (s.heap p).ready ∧
    ((s.estimateTime task).2.heap p).status = (s.heap p).status := by
  unfold TaskManager.estimateTime TaskManager.store Task.estimateTime
  split
  · simp
  · by_cases hp : p = task
    · simp [hp]
    · simp [hp]

theorem store_heap_self (s : TaskManager) (task : TaskPtr) :
    s.store task (s.heap task) = s := by
  unfold TaskManager.store
  have : (fun p => if p = task then s.heap task else s.heap p) = s.heap := by
    funext p
    split
    · next h => rw [h]
    · rfl
  rw [this]

/-! ## The application queues and enqueue -/

theorem findQueue_insertQueue_self (m : AppQueues) (k : String) (q : TaskQueue)
    (h : findQueue m k = none) : findQueue (insertQueue m k q) k = some q := by
  induction m with
  | nil => simp [insertQueue, findQueue]
  | cons e rest ih =>
    obtain ⟨k1, q1⟩ := e
    unfold findQueue at h
    unfold insertQueue
    by_cases hk : k1 = k
    · simp [hk] at h
    · simp only [hk, if_false] at h ⊢
      split
      · simp [findQueue]
      · simp [findQueue, hk, ih h]

theorem findQueue_insertQueue_other (m : AppQueues) (k k2 : String) (q : TaskQueue)
    (hne : k2 ≠ k) : findQueue (insertQueue m k q) k2 = findQueue m k2 := by
  induction m with
  | nil => simp [insertQueue, findQueue, Ne.symm hne]
  | cons e rest ih =>
    obtain ⟨k1, q1⟩ := e
    unfold insertQueue
    split
    · simp [findQueue, Ne.symm hne]
    · split
      · rfl
      · simp [findQueue, ih]

theorem findQueue_assignQueue_self (m : AppQueues) (k : String) (q q0 : TaskQueue)
    (h : findQueue m k = some q0) : findQueue (assignQueue m k q) k = some q := by
  induction m with
  | nil => simp [findQueue] at h
  | cons e rest ih =>
    obtain ⟨k1, q1⟩ := e
    unfold findQueue at h
    unfold assignQueue
    by_cases hk : k1 = k
    · simp [hk, findQueue]
    · simp only [hk, if_false] at h ⊢
      simp [findQueue, hk, ih h]

theorem findQueue_assignQueue_other (m : AppQueues) (k k2 : String) (q : TaskQueue)
    (hne : k2 ≠ k) : findQueue (assignQueue m k q) k2 = findQueue m k2 := by
  induction m with
  | nil => simp [assignQueue]
  | cons e rest ih =>
    obtain ⟨k1, q1⟩ := e
    unfold assignQueue
    by_cases hk : k1 = k
    · subst hk
      simp [findQueue, Ne.symm hne]
    · simp [findQueue, hk, ih]

theorem findQueue_ensureQueue_self (m : AppQueues) (k : String) :
    findQueue (ensureQueue m k) k = some ((findQueue m k).getD []) := by
  unfold ensureQueue
  cases h : findQueue m k with
  | none => simp [findQueue_insertQueue_self m k [] h]
  | some q => simp [h]

theorem findQueue_ensureQueue_other (m : AppQueues) (k k2 : String) (hne : k2 ≠ k) :
    findQueue (ensureQueue m k) k2 = findQueue m k2 := by
  unfold ensureQueue
  cases h : findQueue m k with
  | none => simp [findQueue_insertQueue_other m k k2 [] hne]
  | some q => simp

/-- The state in which enqueue returns, for a ready task and a target queue
that is not full. -/
theorem enqueue_returned (s : TaskManager) (app_id : String) (task : TaskPtr)
    (hready : (s.heap task).isReady = true)
    (hroom : (s.queueOf app_id).length < s.queueCapacity) :
    s.enqueue app_id task = .returned
      { (s.estimateTime task).2 with
        app_queues := assignQueue (ensureQueue s.app_queues app_id) app_id (s.queueOf app_id ++ [task])
        lobbyWaitTime := wrapInt (s.lobbyWaitTime + (s.estimateTime task).1)
        doorWaitTime := wrapInt (s.doorWaitTime - (s.estimateTime task).1) } := by
  have h1 : ((findQueue (ensureQueue s.app_queues app_id) app_id).getD []) = s.queueOf app_id := by
    rw [findQueue_ensureQueue_self]; rfl
  have hc := estimateTime_congr s { s with app_queues := ensureQueue s.app_queues app_id } task rfl rfl
  unfold TaskManager.enqueue
  simp only [hready, Bool.not_true, Bool.false_eq_true, if_false, h1, TaskQueue.push,
    estimateTime_queueCapacity, hroom, if_true, fetch_add, fetch_sub, estimateTime_lobby,
    estimateTime_door, estimateTime_app_queues, hc.1, estimateTime_with_app_queues]

/-- When the target queue is full, enqueue of a ready task never returns. -/
theorem enqueue_blocked (s : TaskManager) (app_id : String) (task : TaskPtr)
    (hready : (s.heap task).isReady = true)
    (hfull : ¬ (s.queueOf app_id).length < s.queueCapacity) :
    ∃ s1, s.enqueue app_id task = .blocked s1 := by
  have h1 : ((findQueue (ensureQueue s.app_queues app_id) app_id).getD []) = s.queueOf app_id := by
    rw [findQueue_ensureQueue_self]; rfl
  unfold TaskManager.enqueue
  simp only [hready, Bool.not_true, Bool.false_eq_true, if_false, h1, TaskQueue.push,
    estimateTime_queueCapacity, estimateTime_with_app_queues, hfull]
  exact ⟨_, rfl⟩

/-- A returning enqueue was given a ready task and a queue with room, and
leaves the state `enqueue_returned` describes. -/
theorem enqueue_returned_inv (s s1 : TaskManager) (app_id : String) (task : TaskPtr)
    (h : s.enqueue app_id task = .returned s1) :
    (s.heap task).isReady = true ∧
    (s.queueOf app_id).length < s.queueCapacity ∧
    s1 = { (s.estimateTime task).2 with
        app_queues := assignQueue (ensureQueue s.app_queues app_id) app_id (s.queueOf app_id ++ [task])
        lobbyWaitTime := wrapInt (s.lobbyWaitTime + (s.estimateTime task).1)
        doorWaitTime := wrapInt (s.doorWaitTime - (s.estimateTime task).1) } := by
  by_cases hready : (s.heap task).isReady = true
  · by_cases hroom : (s.queueOf app_id).length < s.queueCapacity
    · rw [enqueue_returned s app_id task hready hroom] at h
      exact ⟨hready, hroom, (Outcome.returned.inj h).symm⟩
    · obtain ⟨s2, h2⟩ := enqueue_blocked s app_id task hready hroom
      rw [h2] at h
      simp at h
  · unfold TaskManager.enqueue at h
    simp [hready] at h

/-- However enqueue ends, lobbyWaitTime + doorWaitTime is what it was modulo
2^32, and exactly what it was when neither counter update wraps around. -/
theorem enqueue_sum (s s1 : TaskManager) (app_id : String) (task : TaskPtr) (what : String)
    (h : s.enqueue app_id task = .returned s1 ∨ s.enqueue app_id task = .threw what s1 ∨
      s.enqueue app_id task = .blocked s1) :
    wrapInt (s1.lobbyWaitTime + s1.doorWaitTime) = wrapInt (s.lobbyWaitTime + s.doorWaitTime) ∧
    (fitsInt (s.lobbyWaitTime + (s.estimateTime task).1) →
      fitsInt (s.doorWaitTime - (s.estimateTime task).1) →
      s1.lobbyWaitTime + s1.doorWaitTime = s.lobbyWaitTime + s.doorWaitTime) := by
  have hc := estimateTime_congr s { s with app_queues := ensureQueue s.app_queues app_id } task
    rfl rfl
  unfold TaskManager.enqueue at h
  split at h
  · rcases h with h | h | h
    · simp at h
    · simp only [Outcome.threw.injEq] at h
      rw [← h.2]
      exact ⟨rfl, fun _ _ => rfl⟩
    · simp at h
  · simp only at h
    split at h
    · rcases h with h | h | h
      · simp at h
      · simp at h
      · simp only [Outcome.blocked.injEq] at h
        rw [← h]
        simp [estimateTime_lobby, estimateTime_door]
    · rcases h with h | h | h
      · simp only [Outcome.returned.injEq] at h
        rw [← h]
        simp only [fetch_add, fetch_sub, estimateTime_lobby, estimateTime_door, hc.1]
        constructor
        · unfold wrapInt
          omega
        · intro h1 h2
          rw [wrapInt_of_fits _ h1, wrapInt_of_fits _ h2]
          omega
      · simp at h
      · simp at h

/-! ## The wait-time query -/

/-- The pair getWaitTime returns, and the counters afterwards. -/
theorem getWaitTime_value (s : TaskManager) (task : TaskPtr) :
    (s.getWaitTime task).1 = (s.lobbyWaitTime, wrapInt (s.lobbyWaitTime + s.doorWaitTime)) ∧
    (s.getWaitTime task).2.doorWaitTime = wrapInt (s.doorWaitTime + (s.estimateTime task).1) ∧
    (s.getWaitTime task).2.lobbyWaitTime = s.lobbyWaitTime := by
  simp [TaskManager.getWaitTime, fetch_add, estimateTime_lobby, estimateTime_door]

/-- The state getWaitTime leaves: the estimator's, with the door counter raised. -/
theorem getWaitTime_state (s : TaskManager) (task : TaskPtr) :
    (s.getWaitTime task).2 =
      { (s.estimateTime task).2 with
        doorWaitTime := wrapInt (s.doorWaitTime + (s.estimateTime task).1) } := by
  simp [TaskManager.getWaitTime, fetch_add, estimateTime_door]

/-- After a getWaitTime that computed a positive estimate, the estimator
returns the same value again. -/
theorem estimateTime_after_getWaitTime (s : TaskManager) (task : TaskPtr)
    (hpos : 0 < (s.estimateTime task).1) :
    ((s.getWaitTime task).2.estimateTime task).1 = (s.estimateTime task).1 := by
  rw [getWaitTime_state, estimateTime_with_doorWaitTime, estimateTime_again s task hpos]

/-! ## The executor -/

/-- The state in which execute returns when the routine of the popped task
raises a `std::runtime_error`: only the pop and the estimator have acted. -/
theorem execute_raise (s : TaskManager) (delay_time : Nat) (task : TaskPtr) (rest : TaskQueue)
    (hq : s.execution_queue = task :: rest)
    (hb : (s.heap task).onExecute = .raisesRuntime) :
    s.execute delay_time = .returned { (s.estimateTime task).2 with execution_queue := rest } := by
  have hb2 := (estimateTime_heap_frame s task task).1
  rw [hb] at hb2
  unfold TaskManager.execute
  simp only [hq, TaskQueue.pop, estimateTime_with_execution_queue]
  have hx : ({ (s.estimateTime task).2 with execution_queue := rest } : TaskManager).heap task
      = (s.estimateTime task).2.heap task := rfl
  simp only [hx, Task.execute, hb2]
  rw [← hx, store_heap_self]

/-- The state in which execute returns when the routine of the popped task
returns normally, leaving the status `st`. -/
theorem execute_normal (s : TaskManager) (delay_time : Nat) (task : TaskPtr) (rest : TaskQueue)
    (st : Status)
    (hq : s.execution_queue = task :: rest)
    (hb : (s.heap task).onExecute = .finishes st) :
    s.execute delay_time = .returned
      { (s.estimateTime task).2 with
        execution_queue := rest
        heap := fun p =>
          if p = task then { (s.estimateTime task).2.heap task with status := st }
          else (s.estimateTime task).2.heap p
        lobbyWaitTime := wrapInt (s.lobbyWaitTime - (s.estimateTime task).1)
        exeQueueLength := wrapInt (s.exeQueueLength - 1) } := by
  have hb2 := (estimateTime_heap_frame s task task).1
  rw [hb] at hb2
  unfold TaskManager.execute
  simp only [hq, TaskQueue.pop, estimateTime_with_execution_queue]
  have hx : ({ (s.estimateTime task).2 with execution_queue := rest } : TaskManager).heap task
      = (s.estimateTime task).2.heap task := rfl
  simp only [hx, Task.execute, hb2, TaskManager.updateDelayModel, ite_self, fetch_sub,
    TaskManager.store, estimateTime_lobby, estimateTime_exeQueueLength]

/-- When the routine of the popped task raises an exception that is not a
`std::runtime_error`, execute does not return. -/
theorem execute_other (s : TaskManager) (delay_time : Nat) (task : TaskPtr) (rest : TaskQueue)
    (hq : s.execution_queue = task :: rest)
    (hb : (s.heap task).onExecute = .raisesOther) :
    ∃ what s1, s.execute delay_time = .threw what s1 := by
  have hb2 := (estimateTime_heap_frame s task task).1
  rw [hb] at hb2
  unfold TaskManager.execute
  simp only [hq, TaskQueue.pop, estimateTime_with_execution_queue]
  have hx : ({ (s.estimateTime task).2 with execution_queue := rest } : TaskManager).heap task
      = (s.estimateTime task).2.heap task := rfl
  simp only [hx, Task.execute, hb2]
  exact ⟨_, _, rfl⟩

/-- A returning execute popped the head of the ExecutionQueue, and the routine
of that task either raised a `std::runtime_error` or returned normally. -/
theorem execute_returned_inv (s s1 : TaskManager) (delay_time : Nat)
    (h : s.execute delay_time = .returned s1) :
    ∃ task rest, s.execution_queue = task :: rest ∧
      (((s.heap task).onExecute = .raisesRuntime ∧
          s1 = { (s.estimateTime task).2 with execution_queue := rest }) ∨
       (∃ st, (s.heap task).onExecute = .finishes st ∧
          s1 = { (s.estimateTime task).2 with
            execution_queue := rest
            heap := fun p =>
              if p = task then { (s.estimateTime task).2.heap task with status := st }
              else (s.estimateTime task).2.heap p
            lobbyWaitTime := wrapInt (s.lobbyWaitTime - (s.estimateTime task).1)
            exeQueueLength := wrapInt (s.exeQueueLength - 1) })) := by
  cases hq : s.execution_queue with
  | nil =>
    unfold TaskManager.execute at h
    simp [hq, TaskQueue.pop] at h
  | cons task rest =>
    refine ⟨task, rest, rfl, ?_⟩
    cases hb : (s.heap task).onExecute with
    | raisesRuntime =>
      left
      rw [execute_raise s delay_time task rest hq hb] at h
      exact ⟨rfl, (Outcome.returned.inj h).symm⟩
    | raisesOther =>
      obtain ⟨w, s2, h2⟩ := execute_other s delay_time task rest hq hb
      rw [h2] at h
      simp at h
    | finishes st =>
      right
      rw [execute_normal s delay_time task rest st hq hb] at h
      exact ⟨st, rfl, (Outcome.returned.inj h).symm⟩

/-! ## The scheduler -/

/-- When `scheduleChoice` names an application and a task, `schedule` returns,
having popped that task from the head of that application's queue and pushed
it on the ExecutionQueue. -/
theorem schedule_of_choice (s : TaskManager) (rnd : Nat) (app : String) (t : TaskPtr)
    (h : s.scheduleChoice rnd = some (app, t)) :
    ∃ rest, findQueue s.app_queues app = some (t :: rest) ∧
      s.schedule rnd = .returned
        { s with
          app_queues := assignQueue s.app_queues app rest
          execution_queue := (TaskQueue.push s.queueCapacity s.execution_queue t).2
          exeQueueLength := wrapInt (s.exeQueueLength + 1) } := by
  unfold TaskManager.scheduleChoice at h
  simp only at h
  cases hidx : (readyQueues s.app_queues)[rnd % (readyQueues s.app_queues).length]? with
  | none => simp [hidx] at h
  | some a =>
    simp only [hidx] at h
    cases hf : findQueue s.app_queues a with
    | none => simp [hf] at h
    | some q =>
      simp only [hf] at h
      cases q with
      | nil => simp [TaskQueue.pop] at h
      | cons t1 rest =>
        simp only [TaskQueue.pop, Option.some.injEq, Prod.mk.injEq] at h
        obtain ⟨ha, ht⟩ := h
        subst ha ht
        refine ⟨rest, hf, ?_⟩
        have hne : (readyQueues s.app_queues).isEmpty = false := by
          cases hr : readyQueues s.app_queues with
          | nil => simp [hr] at hidx
          | cons _ _ => rfl
        unfold TaskManager.schedule
        simp only [hne, Bool.false_eq_true, if_false, hidx, hf, TaskQueue.pop, fetch_add]

/-- When `schedule` returns, it has either moved the task `scheduleChoice`
names, or (no queue found under the selected key) changed nothing. -/
theorem schedule_returned (s s1 : TaskManager) (rnd : Nat)
    (h : s.schedule rnd = .returned s1) :
    (s.scheduleChoice rnd = none ∧ s1 = s) ∨
    ∃ app t rest, s.scheduleChoice rnd = some (app, t) ∧
      findQueue s.app_queues app = some (t :: rest) ∧
      s1 = { s with
          app_queues := assignQueue s.app_queues app rest
          execution_queue := (TaskQueue.push s.queueCapacity s.execution_queue t).2
          exeQueueLength := wrapInt (s.exeQueueLength + 1) } := by
  cases hc : s.scheduleChoice rnd with
  | some c =>
    obtain ⟨app, t⟩ := c
    obtain ⟨rest, hf, hs⟩ := schedule_of_choice s rnd app t hc
    rw [hs] at h
    right
    exact ⟨app, t, rest, rfl, hf, (Outcome.returned.inj h).symm⟩
  | none =>
    left
    refine ⟨rfl, ?_⟩
    unfold TaskManager.scheduleChoice at hc
    unfold TaskManager.schedule at h
    simp only at hc h
    split at h
    · simp at h
    · cases hidx : (readyQueues s.app_queues)[rnd % (readyQueues s.app_queues).length]? with
      | none => simp [hidx] at h
      | some a =>
        simp only [hidx] at h hc
        cases hf : findQueue s.app_queues a with
        | none =>
          simp only [hf] at h
          exact (Outcome.returned.inj h).symm
        | some q =>
          simp only [hf] at h hc
          cases q with
          | nil => simp [TaskQueue.pop] at h
          | cons t1 rest => simp [TaskQueue.pop] at hc

theorem movedFrom_cons (app a0 : String) (t : TaskPtr) (record : List (String × TaskPtr)) :
    movedFrom app ((a0, t) :: record) =
      if a0 = app then t :: movedFrom app record else movedFrom app record := by
  unfold movedFrom
  by_cases h : a0 = app
  · simp [h]
  · simp [h]

theorem movedFrom_take_drop (app : String) (record : List (String × TaskPtr)) (n : Nat) :
    movedFrom app record = movedFrom app (record.take n) ++ movedFrom app (record.drop n) := by
  unfold movedFrom
  rw [← List.map_append, ← List.filter_append, List.take_append_drop]

/-- The queue of every application, split by one schedule step: the queue
before is what the step took out followed by the queue after. -/
theorem queueOf_schedule_step (s : TaskManager) (a0 app : String) (t : TaskPtr)
    (rest q0 : TaskQueue) (hf : findQueue s.app_queues a0 = some (t :: rest)) :
    s.queueOf app =
      (if a0 = app then [t] else []) ++
        ({ s with app_queues := assignQueue s.app_queues a0 rest,
                  execution_queue := q0,
                  exeQueueLength := wrapInt (s.exeQueueLength + 1) } : TaskManager).queueOf app := by
  unfold TaskManager.queueOf
  by_cases h : a0 = app
  · subst h
    simp [findQueue_assignQueue_self _ a0 rest _ hf, hf]
  · simp [h, findQueue_assignQueue_other _ a0 app rest (Ne.symm h)]

/-- The law of a run of Scheduler iterations: for every application the queue
before the run is what the run took out of it, in the order taken, followed by
the queue after the run; and the ExecutionQueue after the run is the one
before followed by the tasks taken out, in the order taken, as far as its
capacity allowed. -/
theorem runSchedule_law (rnds : List Nat) : ∀ s : TaskManager,
    (∀ app, s.queueOf app =
      movedFrom app (s.runSchedule rnds).1 ++ (s.runSchedule rnds).2.queueOf app) ∧
    (s.runSchedule rnds).2.execution_queue =
      s.execution_queue ++
        ((s.runSchedule rnds).1.map Prod.snd).take (s.queueCapacity - s.execution_queue.length) ∧
    (s.runSchedule rnds).2.queueCapacity = s.queueCapacity := by
  induction rnds with
  | nil =>
    intro s
    simp [TaskManager.runSchedule, movedFrom]
  | cons rnd more ih =>
    intro s
    unfold TaskManager.runSchedule
    cases hs : s.schedule rnd with
    | threw w s1 => simp [movedFrom]
    | blocked s1 => simp [movedFrom]
    | undefined => simp [movedFrom]
    | returned s1 =>
      simp only
      obtain ⟨ih1, ih2, ih3⟩ := ih s1
      rcases schedule_returned s s1 rnd hs with ⟨hc, h1⟩ | ⟨a0, t, rest, hc, hf, h1⟩
      · rw [hc]
        subst h1
        simpa using ⟨ih1, ih2, ih3⟩
      · rw [hc]
        simp only [Option.toList, List.cons_append, List.nil_append, List.map_cons]
        refine ⟨?_, ?_, ?_⟩
        · intro app
          rw [movedFrom_cons, queueOf_schedule_step s a0 app t rest
            (TaskQueue.push s.queueCapacity s.execution_queue t).2 hf, ← h1, ih1 app]
          by_cases h : a0 = app
          · simp [h]
          · simp [h]
        · rw [ih2]
          have hcap : s1.queueCapacity = s.queueCapacity := by rw [h1]
          have hexec : s1.execution_queue =
              (TaskQueue.push s.queueCapacity s.execution_queue t).2 := by rw [h1]
          rw [hcap, hexec]
          unfold TaskQueue.push
          by_cases hlt : s.execution_queue.length < s.queueCapacity
          · simp only [hlt, if_true, List.length_append, List.length_singleton]
            have : s.queueCapacity - s.execution_queue.length
                = (s.queueCapacity - (s.execution_queue.length + 1)) + 1 := by omega
            rw [this, List.take_succ_cons]
            simp
          · simp only [hlt, if_false]
            have : s.queueCapacity - s.execution_queue.length = 0 := by omega
            simp [this]
        · rw [ih3, h1]

/-- Order within a queue that is split into a part taken from the head and
the part left: an entry behind another is taken only after it. -/
theorem head_segment_order (pre mid post taken left : List TaskPtr) (t1 t2 : TaskPtr)
    (h : pre ++ t1 :: (mid ++ t2 :: post) = taken ++ left) :
    (pre.length + 1 + mid.length < taken.length →
      ∃ post1, taken = pre ++ t1 :: (mid ++ t2 :: post1)) ∧
    (taken.length ≤ pre.length →
      ∃ pre1, left = pre1 ++ t1 :: (mid ++ t2 :: post)) := by
  constructor
  · intro hlen
    have h1 : taken = (taken ++ left).take taken.length := by simp
    rw [← h] at h1
    have h2 : pre ++ t1 :: (mid ++ t2 :: post) = (pre ++ t1 :: (mid ++ [t2])) ++ post := by simp
    rw [h2, List.take_append_eq_append_take, List.take_of_length_le (by simp; omega)] at h1
    obtain ⟨post1, hp⟩ : ∃ post1, taken = pre ++ t1 :: (mid ++ [t2]) ++ post1 := ⟨_, h1⟩
    exact ⟨post1, by rw [hp]; simp⟩
  · intro hlen
    have h1 : left = (taken ++ left).drop taken.length := by simp
    rw [← h] at h1
    rw [List.drop_append_of_le_length hlen] at h1
    exact ⟨pre.drop taken.length, h1⟩

/-! ## What no call touches; task ids -/

/-- No call of `Action` touches nextTaskId, deltaDelay or the queue capacity. -/
theorem step_frame (s s1 : TaskManager) (a : Action) (h : s.step a = some s1) :
    s1.nextTaskId = s.nextTaskId ∧ s1.deltaDelay = s.deltaDelay ∧
    s1.queueCapacity = s.queueCapacity := by
  cases a with
  | enqueue app_id task =>
    cases ho : s.enqueue app_id task with
    | returned s2 =>
      simp only [TaskManager.step, ho, Outcome.next, Option.some.injEq] at h
      subst h
      obtain ⟨_, _, hs⟩ := enqueue_returned_inv s s2 app_id task ho
      rw [hs]
      exact ⟨estimateTime_nextTaskId s task, estimateTime_deltaDelay s task,
        estimateTime_queueCapacity s task⟩
    | threw w s2 => simp [TaskManager.step, ho, Outcome.next] at h
    | blocked s2 => simp [TaskManager.step, ho, Outcome.next] at h
    | undefined => simp [TaskManager.step, ho, Outcome.next] at h
  | schedule rnd =>
    cases ho : s.schedule rnd with
    | returned s2 =>
      simp only [TaskManager.step, ho, Outcome.next, Option.some.injEq] at h
      subst h
      rcases schedule_returned s s2 rnd ho with ⟨_, hs⟩ | ⟨_, _, _, _, _, hs⟩ <;> rw [hs] <;>
        exact ⟨rfl, rfl, rfl⟩
    | threw w s2 => simp [TaskManager.step, ho, Outcome.next] at h
    | blocked s2 => simp [TaskManager.step, ho, Outcome.next] at h
    | undefined => simp [TaskManager.step, ho, Outcome.next] at h
  | execute delay_time =>
    cases ho : s.execute delay_time with
    | returned s2 =>
      simp only [TaskManager.step, ho, Outcome.next, Option.some.injEq] at h
      subst h
      obtain ⟨task, rest, _, ⟨_, hs⟩ | ⟨_, _, hs⟩⟩ := execute_returned_inv s s2 delay_time ho <;>
        rw [hs] <;>
        exact ⟨estimateTime_nextTaskId s task, estimateTime_deltaDelay s task,
          estimateTime_queueCapacity s task⟩
    | threw w s2 => simp [TaskManager.step, ho, Outcome.next] at h
    | blocked s2 => simp [TaskManager.step, ho, Outcome.next] at h
    | undefined => simp [TaskManager.step, ho, Outcome.next] at h
  | getWaitTime task =>
    simp only [TaskManager.step, Option.some.injEq] at h
    subst h
    rw [getWaitTime_state]
    exact ⟨estimateTime_nextTaskId s task, estimateTime_deltaDelay s task,
      estimateTime_queueCapacity s task⟩

/-- What one create call does: the task at the returned address carries the
old nextTaskId, and nextTaskId has advanced by one, wrapping around at the end
of the `int` range. -/
theorem create_step (s : TaskManager) (made : Task) (addr : TaskPtr) (env : Nat) :
    (s.create made addr env).1 = addr ∧
    ((s.create made addr env).2.heap (s.create made addr env).1).task_id = s.nextTaskId ∧
    (s.create made addr env).2.nextTaskId = wrapInt (s.nextTaskId + 1) := by
  simp [TaskManager.create, TaskManager.store, fetch_add]

/-- Absent wrap-around, the ids a sequence of calls assigns are consecutive
from nextTaskId. -/
theorem createLog_consecutive (calls : List Call) : ∀ s : TaskManager,
    -2147483648 ≤ s.nextTaskId →
    s.nextTaskId + (creates calls : Int) ≤ 2147483647 →
    s.createLog calls =
      (List.range (s.createLog calls).length).map (fun i : Nat => s.nextTaskId + (i : Int)) := by
  induction calls with
  | nil => intro s _ _; simp [TaskManager.createLog]
  | cons c more ih =>
    intro s hlow hhigh
    cases c with
    | create made addr env =>
      have hc := create_step s made addr env
      have hcount : (creates (.create made addr env :: more) : Int) = creates more + 1 := by
        simp [creates]
      rw [hcount] at hhigh
      have hnext : (s.create made addr env).2.nextTaskId = s.nextTaskId + 1 := by
        rw [hc.2.2]
        apply wrapInt_of_fits
        unfold fitsInt
        omega
      have hlog : s.createLog (.create made addr env :: more) =
          s.nextTaskId :: (s.create made addr env).2.createLog more := by
        rw [TaskManager.createLog, hc.2.1]
      rw [hlog, List.length_cons, List.range_succ_eq_map, List.map_cons, List.map_map]
      conv_lhs =>
        rw [ih (s.create made addr env).2 (by rw [hnext]; omega) (by rw [hnext]; omega), hnext]
      simp only [Nat.cast_zero, add_zero, List.cons.injEq, true_and]
      apply List.map_congr_left
      intro i _
      simp only [Function.comp, Nat.cast_succ]
      ring
    | other a =>
      have hcount : creates (.other a :: more) = creates more := by
        simp [creates]
      rw [hcount] at hhigh
      cases hs : s.step a with
      | none => simp [TaskManager.createLog, hs]
      | some s1 =>
        have hlog : s.createLog (.other a :: more) = s1.createLog more := by
          simp [TaskManager.createLog, hs]
        have hn := (step_frame s s1 a hs).1
        rw [hlog, ih s1 (by rw [hn]; exact hlow) (by rw [hn]; exact hhigh), hn]
        simp

/-! ## Well-formed maps -/

theorem keysDistinct_iff (m : AppQueues) :
    keysDistinct m = true ↔ (m.map Prod.fst).Nodup := by
  induction m with
  | nil => simp [keysDistinct]
  | cons e rest ih =>
    obtain ⟨k, q⟩ := e
    simp [keysDistinct, ih]

theorem findQueue_eq_none_iff (m : AppQueues) (k : String) :
    findQueue m k = none ↔ k ∉ m.map Prod.fst := by
  induction m with
  | nil => simp [findQueue]
  | cons e rest ih =>
    obtain ⟨k1, q1⟩ := e
    unfold findQueue
    by_cases h : k1 = k
    · simp [h]
    · simp [h, ih, Ne.symm h]

theorem keys_assignQueue (m : AppQueues) (k : String) (q : TaskQueue) :
    (assignQueue m k q).map Prod.fst = m.map Prod.fst := by
  induction m with
  | nil => rfl
  | cons e rest ih =>
    obtain ⟨k1, q1⟩ := e
    unfold assignQueue
    by_cases h : k1 = k
    · simp [h]
    · simp [h, ih]

theorem mem_keys_insertQueue (m : AppQueues) (k k2 : String) (q : TaskQueue)
    (h : k2 ∈ (insertQueue m k q).map Prod.fst) : k2 = k ∨ k2 ∈ m.map Prod.fst := by
  induction m with
  | nil => simpa [insertQueue] using h
  | cons e rest ih =>
    obtain ⟨k1, q1⟩ := e
    unfold insertQueue at h
    split at h
    · simpa using h
    · split at h
      · right; exact h
      · simp only [List.map_cons, List.mem_cons] at h ⊢
        rcases h with h | h
        · right; left; exact h
        · rcases ih h with h2 | h2
          · left; exact h2
          · right; right; exact h2

theorem nodup_keys_insertQueue (m : AppQueues) (k : String) (q : TaskQueue)
    (hm : (m.map Prod.fst).Nodup) (hk : k ∉ m.map Prod.fst) :
    ((insertQueue m k q).map Prod.fst).Nodup := by
  induction m with
  | nil => simp [insertQueue]
  | cons e rest ih =>
    obtain ⟨k1, q1⟩ := e
    simp only [List.map_cons, List.nodup_cons, List.mem_cons, not_or] at hm hk
    unfold insertQueue
    split
    · simp only [List.map_cons, List.nodup_cons, List.mem_cons, not_or]
      exact ⟨⟨hk.1, hk.2⟩, hm.1, hm.2⟩
    · split
      · simp only [List.map_cons, List.nodup_cons]
        exact hm
      · simp only [List.map_cons, List.nodup_cons]
        refine ⟨?_, ih hm.2 hk.2⟩
        intro hmem
        rcases mem_keys_insertQueue rest k k1 q hmem with h | h
        · exact hk.1 h.symm
        · exact hm.1 h

theorem keysDistinct_ensureQueue (m : AppQueues) (k : String)
    (hm : keysDistinct m = true) : keysDistinct (ensureQueue m k) = true := by
  rw [keysDistinct_iff] at hm ⊢
  unfold ensureQueue
  cases h : findQueue m k with
  | none => exact nodup_keys_insertQueue m k [] hm ((findQueue_eq_none_iff m k).mp h)
  | some q => exact hm

/-- Every call of `Action` keeps the keys of the map distinct. -/
theorem step_keysDistinct (s s1 : TaskManager) (a : Action)
    (hm : keysDistinct s.app_queues = true) (h : s.step a = some s1) :
    keysDistinct s1.app_queues = true := by
  cases a with
  | enqueue app_id task =>
    cases ho : s.enqueue app_id task with
    | returned s2 =>
      simp only [TaskManager.step, ho, Outcome.next, Option.some.injEq] at h
      subst h
      obtain ⟨_, _, hs⟩ := enqueue_returned_inv s s2 app_id task ho
      rw [hs]
      have := keysDistinct_ensureQueue s.app_queues app_id hm
      rw [keysDistinct_iff] at this ⊢
      simpa [keys_assignQueue] using this
    | threw w s2 => simp [TaskManager.step, ho, Outcome.next] at h
    | blocked s2 => simp [TaskManager.step, ho, Outcome.next] at h
    | undefined => simp [TaskManager.step, ho, Outcome.next] at h
  | schedule rnd =>
    cases ho : s.schedule rnd with
    | returned s2 =>
      simp only [TaskManager.step, ho, Outcome.next, Option.some.injEq] at h
      subst h
      rcases schedule_returned s s2 rnd ho with ⟨_, hs⟩ | ⟨_, _, _, _, _, hs⟩
      · rw [hs]; exact hm
      · rw [hs]
        rw [keysDistinct_iff] at hm ⊢
        simpa [keys_assignQueue] using hm
    | threw w s2 => simp [TaskManager.step, ho, Outcome.next] at h
    | blocked s2 => simp [TaskManager.step, ho, Outcome.next] at h
    | undefined => simp [TaskManager.step, ho, Outcome.next] at h
  | execute delay_time =>
    cases ho : s.execute delay_time with
    | returned s2 =>
      simp only [TaskManager.step, ho, Outcome.next, Option.some.injEq] at h
      subst h
      obtain ⟨task, rest, _, ⟨_, hs⟩ | ⟨_, _, hs⟩⟩ := execute_returned_inv s s2 delay_time ho <;>
        rw [hs] <;> simpa [estimateTime_app_queues] using hm
    | threw w s2 => simp [TaskManager.step, ho, Outcome.next] at h
    | blocked s2 => simp [TaskManager.step, ho, Outcome.next] at h
    | undefined => simp [TaskManager.step, ho, Outcome.next] at h
  | getWaitTime task =>
    simp only [TaskManager.step, Option.some.injEq] at h
    subst h
    rw [getWaitTime_state]
    simpa [estimateTime_app_queues] using hm

/-- In every state a run reaches from a state with distinct keys, the keys of
the map are distinct. -/
theorem run_keysDistinct (acts : List Action) : ∀ s s1 : TaskManager,
    keysDistinct s.app_queues = true → s.run acts = some s1 →
    keysDistinct s1.app_queues = true := by
  induction acts with
  | nil =>
    intro s s1 hm h
    simp only [TaskManager.run, Option.some.injEq] at h
    rw [← h]; exact hm
  | cons a more ih =>
    intro s s1 hm h
    unfold TaskManager.run at h
    cases hs : s.step a with
    | none => simp [hs] at h
    | some s2 =>
      simp only [hs] at h
      exact ih s2 s1 (step_keysDistinct s s2 a hm hs) h

theorem mem_readyQueues (m : AppQueues) (app : String) (h : app ∈ readyQueues m) :
    app ∈ m.map Prod.fst := by
  unfold readyQueues at h
  simp only [List.mem_map, List.mem_filter] at h ⊢
  obtain ⟨e, ⟨he, _⟩, hk⟩ := h
  exact ⟨e, he, hk⟩

/-- In a map with distinct keys, a key the scan recorded leads to a non-empty
queue. -/
theorem findQueue_of_ready (m : AppQueues) (app : String)
    (hm : (m.map Prod.fst).Nodup) (h : app ∈ readyQueues m) :
    ∃ t rest, findQueue m app = some (t :: rest) := by
  induction m with
  | nil => simp [readyQueues] at h
  | cons e more ih =>
    obtain ⟨k1, q1⟩ := e
    simp only [List.map_cons, List.nodup_cons] at hm
    by_cases hk : k1 = app
    · subst hk
      cases q1 with
      | nil =>
        have : k1 ∈ readyQueues more := by
          simpa [readyQueues, TaskQueue.empty] using h
        exact absurd (mem_readyQueues more k1 this) hm.1
      | cons t rest => exact ⟨t, rest, by simp [findQueue]⟩
    · have : app ∈ readyQueues more := by
        unfold readyQueues at h ⊢
        simp only [List.mem_map, List.mem_filter, List.mem_cons] at h ⊢
        obtain ⟨e, ⟨he, hne⟩, hke⟩ := h
        rcases he with he | he
        · subst he; exact absurd hke hk
        · exact ⟨e, ⟨he, hne⟩, hke⟩
      obtain ⟨t, rest, hf⟩ := ih hm.2 this
      exact ⟨t, rest, by simp [findQueue, hk, hf]⟩

/-! ## Held tasks and their estimates -/

theorem estimateSum_append (heap : TaskPtr → Task) (a b : List TaskPtr) :
    estimateSum heap (a ++ b) = estimateSum heap a + estimateSum heap b := by
  simp [estimateSum]

theorem estimateSum_cons (heap : TaskPtr → Task) (t : TaskPtr) (a : List TaskPtr) :
    estimateSum heap (t :: a) = (heap t).estimated_time + estimateSum heap a := by
  simp [estimateSum]

theorem estimateSum_nil (heap : TaskPtr → Task) : estimateSum heap [] = 0 := by
  simp [estimateSum]

theorem estimateSum_congr (h1 h2 : TaskPtr → Task) (l : List TaskPtr)
    (h : ∀ p ∈ l, (h1 p).estimated_time = (h2 p).estimated_time) :
    estimateSum h1 l = estimateSum h2 l := by
  unfold estimateSum
  rw [List.map_congr_left h]

theorem estimateSum_nonneg (heap : TaskPtr → Task) (l : List TaskPtr)
    (h : ∀ p ∈ l, 0 < (heap p).estimated_time) : 0 ≤ estimateSum heap l := by
  induction l with
  | nil => simp [estimateSum]
  | cons t rest ih =>
    rw [estimateSum_cons]
    have h1 := h t (List.mem_cons_self t rest)
    have h2 := ih (fun p hp => h p (List.mem_cons_of_mem t hp))
    omega

/-- The queue stored under a key is a segment of the queued tasks, and a write
to that queue replaces exactly that segment. -/
theorem queuedTasks_assignQueue (m : AppQueues) (k : String) (q : TaskQueue)
    (hf : findQueue m k = some q) :
    ∃ pre post, queuedTasks m = pre ++ q ++ post ∧
      ∀ q2, queuedTasks (assignQueue m k q2) = pre ++ q2 ++ post := by
  induction m with
  | nil => simp [findQueue] at hf
  | cons e rest ih =>
    obtain ⟨k1, q1⟩ := e
    unfold findQueue at hf
    by_cases hk : k1 = k
    · simp only [hk, if_true, Option.some.injEq] at hf
      subst hf
      refine ⟨[], queuedTasks rest, by simp [queuedTasks], ?_⟩
      intro q2
      simp [assignQueue, hk, queuedTasks]
    · simp only [hk, if_false] at hf
      obtain ⟨pre, post, h1, h2⟩ := ih hf
      refine ⟨q1 ++ pre, post, by simp [queuedTasks, h1], ?_⟩
      intro q2
      simp [assignQueue, hk, queuedTasks, h2]

theorem queuedTasks_insertQueue_nil (m : AppQueues) (k : String) :
    queuedTasks (insertQueue m k []) = queuedTasks m := by
  induction m with
  | nil => simp [insertQueue, queuedTasks]
  | cons e rest ih =>
    obtain ⟨k1, q1⟩ := e
    unfold insertQueue
    split
    · simp [queuedTasks]
    · split
      · rfl
      · simp [queuedTasks, ih]

theorem queuedTasks_ensureQueue (m : AppQueues) (k : String) :
    queuedTasks (ensureQueue m k) = queuedTasks m := by
  unfold ensureQueue
  cases h : findQueue m k with
  | none => exact queuedTasks_insertQueue_nil m k
  | some q => rfl

theorem estimateSum_estimateTime (s : TaskManager) (task : TaskPtr) (l : List TaskPtr)
    (hl : ∀ p ∈ l, 0 < (s.heap p).estimated_time) :
    estimateSum (s.estimateTime task).2.heap l = estimateSum s.heap l :=
  estimateSum_congr _ _ _ (fun p hp => estimateTime_est_pos s task p (hl p hp))

/-- A returning enqueue that computed a positive estimate and did not overflow
the lobby counter keeps that counter above the estimates of the held tasks,
all of which stay positive. -/
theorem enqueue_covers (s s1 : TaskManager) (app_id : String) (task : TaskPtr)
    (h : s.enqueue app_id task = .returned s1)
    (hpos : 0 < (s.estimateTime task).1)
    (hfit : s.lobbyWaitTime + (s.estimateTime task).1 ≤ 2147483647)
    (hheld : ∀ p ∈ s.held, 0 < (s.heap p).estimated_time)
    (hsum : estimateSum s.heap s.held ≤ s.lobbyWaitTime) :
    (∀ p ∈ s1.held, 0 < (s1.heap p).estimated_time) ∧
    estimateSum s1.heap s1.held ≤ s1.lobbyWaitTime ∧
    s1.lobbyWaitTime ≤ 2147483647 := by
  obtain ⟨_, _, hs⟩ := enqueue_returned_inv s s1 app_id task h
  have hf : findQueue (ensureQueue s.app_queues app_id) app_id = some (s.queueOf app_id) :=
    findQueue_ensureQueue_self s.app_queues app_id
  obtain ⟨pre, post, hq, hq2⟩ := queuedTasks_assignQueue _ app_id _ hf
  rw [queuedTasks_ensureQueue] at hq
  have hheld0 : s.held = pre ++ s.queueOf app_id ++ post ++ s.execution_queue := by
    simp [TaskManager.held, hq]
  have hheld1 : s1.held =
      pre ++ (s.queueOf app_id ++ [task]) ++ post ++ s.execution_queue := by
    rw [hs]
    simp [TaskManager.held, hq2, estimateTime_execution_queue]
  have hheap : s1.heap = (s.estimateTime task).2.heap := by rw [hs]
  have hnonneg := estimateSum_nonneg s.heap s.held hheld
  have hl : s1.lobbyWaitTime = s.lobbyWaitTime + (s.estimateTime task).1 := by
    rw [hs]
    show wrapInt (s.lobbyWaitTime + (s.estimateTime task).1) = _
    apply wrapInt_of_fits
    unfold fitsInt
    omega
  have hsub : ∀ p ∈ s1.held, p ∈ s.held ∨ p = task := by
    intro p hp
    rw [hheld1] at hp
    rw [hheld0]
    simp only [List.mem_append, List.mem_singleton] at hp ⊢
    tauto
  have hpre : ∀ p ∈ pre, 0 < (s.heap p).estimated_time := by
    intro p hp; apply hheld; rw [hheld0]; simp [hp]
  have hque : ∀ p ∈ s.queueOf app_id, 0 < (s.heap p).estimated_time := by
    intro p hp; apply hheld; rw [hheld0]; simp [hp]
  have hpost : ∀ p ∈ post, 0 < (s.heap p).estimated_time := by
    intro p hp; apply hheld; rw [hheld0]; simp [hp]
  have hexe : ∀ p ∈ s.execution_queue, 0 < (s.heap p).estimated_time := by
    intro p hp; apply hheld; rw [hheld0]; simp [hp]
  refine ⟨?_, ?_, ?_⟩
  · intro p hp
    rw [hheap]
    rcases hsub p hp with h1 | h1
    · rw [estimateTime_est_pos s task p (hheld p h1)]
      exact hheld p h1
    · rw [h1, estimateTime_stored]
      exact hpos
  · rw [hheld0] at hsum
    rw [hheld1, hheap, hl]
    simp only [estimateSum_append, estimateSum_cons, estimateSum_nil] at hsum ⊢
    rw [estimateSum_estimateTime s task pre hpre,
      estimateSum_estimateTime s task _ hque,
      estimateSum_estimateTime s task post hpost,
      estimateSum_estimateTime s task _ hexe, estimateTime_stored]
    omega
  · rw [hl]
    exact hfit

/-- A getWaitTime keeps the lobby counter, and keeps it above the estimates of
the held tasks, all of which stay positive. -/
theorem getWaitTime_covers (s : TaskManager) (task : TaskPtr)
    (hheld : ∀ p ∈ s.held, 0 < (s.heap p).estimated_time)
    (hsum : estimateSum s.heap s.held ≤ s.lobbyWaitTime) :
    (∀ p ∈ (s.getWaitTime task).2.held, 0 < ((s.getWaitTime task).2.heap p).estimated_time) ∧
    estimateSum (s.getWaitTime task).2.heap (s.getWaitTime task).2.held
      ≤ (s.getWaitTime task).2.lobbyWaitTime ∧
    (s.getWaitTime task).2.lobbyWaitTime = s.lobbyWaitTime := by
  have hh : (s.getWaitTime task).2.held = s.held := by
    rw [getWaitTime_state]
    simp [TaskManager.held, estimateTime_app_queues, estimateTime_execution_queue]
  have hheap : (s.getWaitTime task).2.heap = (s.estimateTime task).2.heap := by
    rw [getWaitTime_state]
  have hl : (s.getWaitTime task).2.lobbyWaitTime = s.lobbyWaitTime := by
    rw [getWaitTime_state]; exact estimateTime_lobby s task
  rw [hh, hheap, hl]
  refine ⟨?_, ?_, rfl⟩
  · intro p hp
    rw [estimateTime_est_pos s task p (hheld p hp)]
    exact hheld p hp
  · rw [estimateSum_estimateTime s task _ hheld]
    exact hsum

/-- A returning schedule keeps the lobby counter, and keeps it above the
estimates of the held tasks, all of which stay positive. -/
theorem schedule_covers (s s1 : TaskManager) (rnd : Nat)
    (h : s.schedule rnd = .returned s1)
    (hheld : ∀ p ∈ s.held, 0 < (s.heap p).estimated_time)
    (hsum : estimateSum s.heap s.held ≤ s.lobbyWaitTime) :
    (∀ p ∈ s1.held, 0 < (s1.heap p).estimated_time) ∧
    estimateSum s1.heap s1.held ≤ s1.lobbyWaitTime ∧
    s1.lobbyWaitTime = s.lobbyWaitTime := by
  rcases schedule_returned s s1 rnd h with ⟨_, hs⟩ | ⟨app, t, rest, _, hf, hs⟩
  · rw [hs]; exact ⟨hheld, hsum, rfl⟩
  · obtain ⟨pre, post, hq, hq2⟩ := queuedTasks_assignQueue _ app _ hf
    have hheld0 : s.held = pre ++ (t :: rest) ++ post ++ s.execution_queue := by
      simp [TaskManager.held, hq]
    have hheap : s1.heap = s.heap := by rw [hs]
    have hl : s1.lobbyWaitTime = s.lobbyWaitTime := by rw [hs]
    have ht : 0 < (s.heap t).estimated_time := by
      apply hheld; rw [hheld0]; simp
    by_cases hroom : s.execution_queue.length < s.queueCapacity
    · have hheld1 : s1.held = pre ++ rest ++ post ++ (s.execution_queue ++ [t]) := by
        rw [hs]; simp [TaskManager.held, hq2, TaskQueue.push, hroom]
      refine ⟨?_, ?_, hl⟩
      · intro p hp
        rw [hheap]; apply hheld
        rw [hheld1] at hp; rw [hheld0]
        simp only [List.mem_append, List.mem_cons, List.mem_singleton] at hp ⊢
        tauto
      · rw [hheld0] at hsum
        rw [hheld1, hheap, hl]
        simp only [estimateSum_append, estimateSum_cons, estimateSum_nil] at hsum ⊢
        omega
    · have hheld1 : s1.held = pre ++ rest ++ post ++ s.execution_queue := by
        rw [hs]; simp [TaskManager.held, hq2, TaskQueue.push, hroom]
      refine ⟨?_, ?_, hl⟩
      · intro p hp
        rw [hheap]; apply hheld
        rw [hheld1] at hp; rw [hheld0]
        simp only [List.mem_append, List.mem_cons] at hp ⊢
        tauto
      · rw [hheld0] at hsum
        rw [hheld1, hheap, hl]
        simp only [estimateSum_append, estimateSum_cons] at hsum ⊢
        omega

/-- A returning execute keeps the lobby counter above the estimates of the
held tasks, all of which stay positive, and does not raise it. -/
theorem execute_covers (s s1 : TaskManager) (delay_time : Nat)
    (h : s.execute delay_time = .returned s1)
    (hheld : ∀ p ∈ s.held, 0 < (s.heap p).estimated_time)
    (hsum : estimateSum s.heap s.held ≤ s.lobbyWaitTime)
    (hmax : s.lobbyWaitTime ≤ 2147483647) :
    (∀ p ∈ s1.held, 0 < (s1.heap p).estimated_time) ∧
    estimateSum s1.heap s1.held ≤ s1.lobbyWaitTime ∧
    s1.lobbyWaitTime ≤ 2147483647 := by
  obtain ⟨task, rest, hq, hcase⟩ := execute_returned_inv s s1 delay_time h
  have hheld0 : s.held = queuedTasks s.app_queues ++ (task :: rest) := by
    simp [TaskManager.held, hq]
  have ht : 0 < (s.heap task).estimated_time := by
    apply hheld; rw [hheld0]; simp
  have hqn : 0 ≤ estimateSum s.heap (queuedTasks s.app_queues) := by
    apply estimateSum_nonneg
    intro p hp; apply hheld; rw [hheld0]; simp [hp]
  have hrn : 0 ≤ estimateSum s.heap rest := by
    apply estimateSum_nonneg
    intro p hp; apply hheld; rw [hheld0]; simp [hp]
  have hest := estimateTime_cached s task ht
  rw [hest] at hcase
  simp only at hcase
  rw [hheld0] at hsum
  simp only [estimateSum_append, estimateSum_cons] at hsum
  rcases hcase with ⟨_, hs⟩ | ⟨st, _, hs⟩
  · have hheld1 : s1.held = queuedTasks s.app_queues ++ rest := by
      rw [hs]; rfl
    have hheap : s1.heap = s.heap := by rw [hs]
    have hl : s1.lobbyWaitTime = s.lobbyWaitTime := by rw [hs]
    refine ⟨?_, ?_, ?_⟩
    · intro p hp
      rw [hheap]; apply hheld
      rw [hheld1] at hp; rw [hheld0]
      simp only [List.mem_append, List.mem_cons] at hp ⊢
      tauto
    · rw [hheld1, hheap, hl]
      simp only [estimateSum_append]
      omega
    · rw [hl]; exact hmax
  · have hheld1 : s1.held = queuedTasks s.app_queues ++ rest := by
      rw [hs]; rfl
    have hw : ∀ p, (s1.heap p).estimated_time = (s.heap p).estimated_time := by
      intro p
      rw [hs]
      by_cases hp : p = task
      · simp [hp]
      · simp [hp]
    have hl : s1.lobbyWaitTime = s.lobbyWaitTime - (s.heap task).estimated_time := by
      rw [hs]
      show wrapInt (s.lobbyWaitTime - (s.heap task).estimated_time) = _
      apply wrapInt_of_fits
      unfold fitsInt
      omega
    refine ⟨?_, ?_, ?_⟩
    · intro p hp
      rw [hw]; apply hheld
      rw [hheld1] at hp; rw [hheld0]
      simp only [List.mem_append, List.mem_cons] at hp ⊢
      tauto
    · rw [hheld1, hl, estimateSum_congr s1.heap s.heap _ (fun p _ => hw p)]
      simp only [estimateSum_append]
      omega
    · rw [hl]; omega

/-- What schedule does when the ExecutionQueue has room: the head of one
non-empty AppQueue moves to the tail of the ExecutionQueue, exeQueueLength
grows by one (wrapping around at the end of the `int` range), and nothing
else changes. -/
theorem schedule_with_room (s : TaskManager) (rnd : Nat)
    (hkeys : keysDistinct s.app_queues = true)
    (hscan : readyQueues s.app_queues ≠ [])
    (hroom : s.execution_queue.length < s.queueCapacity) :
    ∃ app t rest s1, app ∈ readyQueues s.app_queues ∧
      findQueue s.app_queues app = some (t :: rest) ∧
      s.schedule rnd = .returned s1 ∧
      findQueue s1.app_queues app = some rest ∧
      (∀ k, k ≠ app → findQueue s1.app_queues k = findQueue s.app_queues k) ∧
      s1.execution_queue = s.execution_queue ++ [t] ∧
      s1.exeQueueLength = wrapInt (s.exeQueueLength + 1) ∧
      s1.lobbyWaitTime = s.lobbyWaitTime ∧ s1.doorWaitTime = s.doorWaitTime ∧
      s1.held.length = s.held.length := by
  have hlen : 0 < (readyQueues s.app_queues).length := List.length_pos.mpr hscan
  have hidx := Nat.mod_lt rnd hlen
  have hget := List.getElem?_eq_getElem hidx
  have hmem := List.getElem_mem hidx
  obtain ⟨t, rest, hf⟩ := findQueue_of_ready s.app_queues _
    ((keysDistinct_iff s.app_queues).mp hkeys) hmem
  have hchoice : s.scheduleChoice rnd =
      some ((readyQueues s.app_queues)[rnd % (readyQueues s.app_queues).length], t) := by
    simp [TaskManager.scheduleChoice, hget, hf, TaskQueue.pop]
  obtain ⟨rest2, hf2, hs⟩ := schedule_of_choice s rnd _ t hchoice
  have hrest : rest2 = rest := by
    rw [hf] at hf2
    simpa using hf2.symm
  subst hrest
  obtain ⟨pre, post, hq, hq2⟩ := queuedTasks_assignQueue _ _ _ hf
  refine ⟨_, t, rest2, _, hmem, hf, hs, ?_, ?_, ?_, rfl, rfl, rfl, ?_⟩
  · exact findQueue_assignQueue_self _ _ _ _ hf
  · intro k hk
    exact findQueue_assignQueue_other _ _ k _ hk
  · simp [TaskQueue.push, hroom]
  · simp [TaskManager.held, hq, hq2, TaskQueue.push, hroom]
    omega

/-! ## Invariants of runs -/

/-- Splitting the two run predicates at the first call. -/
theorem positiveEstimates_cons (s s1 : TaskManager) (a : Action) (more : List Action)
    (h : s.positiveEstimates (a :: more) = true) (hs : s.step a = some s1) :
    s.positiveEstimate a = true ∧ s1.positiveEstimates more = true := by
  unfold TaskManager.positiveEstimates at h
  simpa only [hs, Bool.and_eq_true] using h

theorem countersFit_cons (s s1 : TaskManager) (a : Action) (more : List Action)
    (h : s.countersFit (a :: more) = true) (hs : s.step a = some s1) :
    s.counterFits a = true ∧ s1.countersFit more = true := by
  unfold TaskManager.countersFit at h
  simpa only [hs, Bool.and_eq_true] using h

/-- Every returning call that does not overflow exeQueueLength keeps it at or
above the number of tasks in the ExecutionQueue. -/
theorem step_length_covered (s s1 : TaskManager) (a : Action) (h : s.step a = some s1)
    (hfit : s.counterFits a = true)
    (hlen : (s.execution_queue.length : Int) ≤ s.exeQueueLength)
    (hmax : s.exeQueueLength ≤ 2147483647) :
    (s1.execution_queue.length : Int) ≤ s1.exeQueueLength ∧
    s1.exeQueueLength ≤ 2147483647 := by
  cases a with
  | enqueue app_id task =>
    cases ho : s.enqueue app_id task with
    | returned s2 =>
      simp only [TaskManager.step, ho, Outcome.next, Option.some.injEq] at h
      subst h
      obtain ⟨_, _, hs⟩ := enqueue_returned_inv s s2 app_id task ho
      rw [hs]
      simpa [estimateTime_execution_queue, estimateTime_exeQueueLength] using ⟨hlen, hmax⟩
    | threw w s2 => simp [TaskManager.step, ho, Outcome.next] at h
    | blocked s2 => simp [TaskManager.step, ho, Outcome.next] at h
    | undefined => simp [TaskManager.step, ho, Outcome.next] at h
  | schedule rnd =>
    have hfit2 : s.exeQueueLength + 1 ≤ 2147483647 := by
      simpa [TaskManager.counterFits] using hfit
    cases ho : s.schedule rnd with
    | returned s2 =>
      simp only [TaskManager.step, ho, Outcome.next, Option.some.injEq] at h
      subst h
      rcases schedule_returned s s2 rnd ho with ⟨_, hs⟩ | ⟨_, t, _, _, _, hs⟩
      · rw [hs]; exact ⟨hlen, hmax⟩
      · have hx : s2.exeQueueLength = s.exeQueueLength + 1 := by
          rw [hs]
          show wrapInt (s.exeQueueLength + 1) = _
          apply wrapInt_of_fits
          unfold fitsInt
          omega
        have hq : (s2.execution_queue.length : Int) ≤ s.execution_queue.length + 1 := by
          rw [hs]
          simp only [TaskQueue.push]
          split
          · simp
          · simp
        omega
    | threw w s2 => simp [TaskManager.step, ho, Outcome.next] at h
    | blocked s2 => simp [TaskManager.step, ho, Outcome.next] at h
    | undefined => simp [TaskManager.step, ho, Outcome.next] at h
  | execute delay_time =>
    cases ho : s.execute delay_time with
    | returned s2 =>
      simp only [TaskManager.step, ho, Outcome.next, Option.some.injEq] at h
      subst h
      obtain ⟨task, rest, hq, ⟨_, hs⟩ | ⟨_, _, hs⟩⟩ := execute_returned_inv s s2 delay_time ho
      · rw [hs]
        rw [hq] at hlen
        simp only [List.length_cons, estimateTime_exeQueueLength] at hlen ⊢
        push_cast at hlen
        omega
      · rw [hq] at hlen
        simp only [List.length_cons] at hlen
        push_cast at hlen
        have hx : s2.exeQueueLength = s.exeQueueLength - 1 := by
          rw [hs]
          show wrapInt (s.exeQueueLength - 1) = _
          apply wrapInt_of_fits
          unfold fitsInt
          omega
        have hl : s2.execution_queue = rest := by rw [hs]
        rw [hx, hl]
        omega
    | threw w s2 => simp [TaskManager.step, ho, Outcome.next] at h
    | blocked s2 => simp [TaskManager.step, ho, Outcome.next] at h
    | undefined => simp [TaskManager.step, ho, Outcome.next] at h
  | getWaitTime task =>
    simp only [TaskManager.step, Option.some.injEq] at h
    subst h
    rw [getWaitTime_state]
    simpa [estimateTime_execution_queue, estimateTime_exeQueueLength] using ⟨hlen, hmax⟩

/-- Every returning call that computes a positive estimate and does not
overflow the lobby counter keeps that counter at or above the sum of the
cached estimates of the held tasks, which stay positive. -/
theorem step_lobby_covered (s s1 : TaskManager) (a : Action) (h : s.step a = some s1)
    (hfit : s.counterFits a = true)
    (hpos : s.positiveEstimate a = true)
    (hheld : ∀ p ∈ s.held, 0 < (s.heap p).estimated_time)
    (hsum : estimateSum s.heap s.held ≤ s.lobbyWaitTime)
    (hmax : s.lobbyWaitTime ≤ 2147483647) :
    (∀ p ∈ s1.held, 0 < (s1.heap p).estimated_time) ∧
    estimateSum s1.heap s1.held ≤ s1.lobbyWaitTime ∧
    s1.lobbyWaitTime ≤ 2147483647 := by
  cases a with
  | enqueue app_id task =>
    have hfit2 : s.lobbyWaitTime + (s.estimateTime task).1 ≤ 2147483647 := by
      simpa [TaskManager.counterFits] using hfit
    have hpos2 : 0 < (s.estimateTime task).1 := by
      simpa [TaskManager.positiveEstimate] using hpos
    cases ho : s.enqueue app_id task with
    | returned s3 =>
      simp only [TaskManager.step, ho, Outcome.next, Option.some.injEq] at h
      subst h
      exact enqueue_covers s s3 app_id task ho hpos2 hfit2 hheld hsum
    | threw w s3 => simp [TaskManager.step, ho, Outcome.next] at h
    | blocked s3 => simp [TaskManager.step, ho, Outcome.next] at h
    | undefined => simp [TaskManager.step, ho, Outcome.next] at h
  | schedule rnd =>
    cases ho : s.schedule rnd with
    | returned s3 =>
      simp only [TaskManager.step, ho, Outcome.next, Option.some.injEq] at h
      subst h
      obtain ⟨h1, h2, h3⟩ := schedule_covers s s3 rnd ho hheld hsum
      exact ⟨h1, h2, by rw [h3]; exact hmax⟩
    | threw w s3 => simp [TaskManager.step, ho, Outcome.next] at h
    | blocked s3 => simp [TaskManager.step, ho, Outcome.next] at h
    | undefined => simp [TaskManager.step, ho, Outcome.next] at h
  | execute delay_time =>
    cases ho : s.execute delay_time with
    | returned s3 =>
      simp only [TaskManager.step, ho, Outcome.next, Option.some.injEq] at h
      subst h
      exact execute_covers s s3 delay_time ho hheld hsum hmax
    | threw w s3 => simp [TaskManager.step, ho, Outcome.next] at h
    | blocked s3 => simp [TaskManager.step, ho, Outcome.next] at h
    | undefined => simp [TaskManager.step, ho, Outcome.next] at h
  | getWaitTime task =>
    simp only [TaskManager.step, Option.some.injEq] at h
    subst h
    obtain ⟨h1, h2, h3⟩ := getWaitTime_covers s task hheld hsum
    exact ⟨h1, h2, by rw [h3]; exact hmax⟩

/-- Along a run in which no addition to lobbyWaitTime or exeQueueLength
overflows: exeQueueLength stays at or above the number of tasks in the
ExecutionQueue; and when every computed estimate is positive, the lobby counter
stays at or above the sum of the cached estimates of the held tasks, which stay
positive. -/
theorem run_covers (acts : List Action) : ∀ s s1 : TaskManager,
    s.run acts = some s1 →
    s.countersFit acts = true →
    ((s.execution_queue.length : Int) ≤ s.exeQueueLength →
      s.exeQueueLength ≤ 2147483647 →
      (s1.execution_queue.length : Int) ≤ s1.exeQueueLength ∧
      s1.exeQueueLength ≤ 2147483647) ∧
    (s.positiveEstimates acts = true →
      (∀ p ∈ s.held, 0 < (s.heap p).estimated_time) →
      estimateSum s.heap s.held ≤ s.lobbyWaitTime →
      s.lobbyWaitTime ≤ 2147483647 →
      (∀ p ∈ s1.held, 0 < (s1.heap p).estimated_time) ∧
      estimateSum s1.heap s1.held ≤ s1.lobbyWaitTime ∧
      s1.lobbyWaitTime ≤ 2147483647) := by
  induction acts with
  | nil =>
    intro s s1 h _
    simp only [TaskManager.run, Option.some.injEq] at h
    subst h
    exact ⟨fun h1 h2 => ⟨h1, h2⟩, fun _ h1 h2 h3 => ⟨h1, h2, h3⟩⟩
  | cons a more ih =>
    intro s s1 h hfit
    unfold TaskManager.run at h
    cases hs : s.step a with
    | none => simp [hs] at h
    | some s2 =>
      simp only [hs] at h
      obtain ⟨hfa, hfm⟩ := countersFit_cons s s2 a more hfit hs
      obtain ⟨ih1, ih2⟩ := ih s2 s1 h hfm
      constructor
      · intro hlen hmax
        obtain ⟨h1, h2⟩ := step_length_covered s s2 a hs hfa hlen hmax
        exact ih1 h1 h2
      · intro hpos hheld hsum hmax
        obtain ⟨hpa, hpm⟩ := positiveEstimates_cons s s2 a more hpos hs
        obtain ⟨h1, h2, h3⟩ := step_lobby_covered s s2 a hs hfa hpa hheld hsum hmax
        exact ih2 hpm h1 h2 h3

/-! ## First-in first-out and round trips -/

/-- First-in first-out within runs of the Scheduler alone.  Let t1 stand ahead
of t2 in the queue of one application (enqueue appends at the tail, so this is
what enqueueing t1 before t2 gives).  In every run of Scheduler iterations with
no other call in between, whatever `rand()` returns: the tasks taken out of
that queue are a head segment of it, in queue order; if the entry of t2 has
been taken, the entry of t1 was taken before it; while the entry of t1 still
waits, the entry of t2 waits behind it; the ExecutionQueue, which an Executor
pops from the head, receives the tasks in the order they were taken; and
among the tasks that reached the ExecutionQueue, if the entry of t2 is there,
the entry of t1 precedes it. -/
theorem schedule_fifo (s : TaskManager) (app_id : String) (rnds : List Nat)
    (pre mid post : List TaskPtr) (t1 t2 : TaskPtr)
    (hq : s.queueOf app_id = pre ++ t1 :: (mid ++ t2 :: post)) :
    s.queueOf app_id =
      movedFrom app_id (s.runSchedule rnds).1 ++ (s.runSchedule rnds).2.queueOf app_id ∧
    (pre.length + 1 + mid.length < (movedFrom app_id (s.runSchedule rnds).1).length →
      ∃ post1, movedFrom app_id (s.runSchedule rnds).1 = pre ++ t1 :: (mid ++ t2 :: post1)) ∧
    ((movedFrom app_id (s.runSchedule rnds).1).length ≤ pre.length →
      ∃ pre1, (s.runSchedule rnds).2.queueOf app_id = pre1 ++ t1 :: (mid ++ t2 :: post)) ∧
    (s.runSchedule rnds).2.execution_queue =
      s.execution_queue ++
        (((s.runSchedule rnds).1.take (s.queueCapacity - s.execution_queue.length)).map
          Prod.snd) ∧
    (pre.length + 1 + mid.length <
        (movedFrom app_id
          ((s.runSchedule rnds).1.take (s.queueCapacity - s.execution_queue.length))).length →
      ∃ post1,
        movedFrom app_id
          ((s.runSchedule rnds).1.take (s.queueCapacity - s.execution_queue.length))
        = pre ++ t1 :: (mid ++ t2 :: post1)) := by
  obtain ⟨h1, h2, _⟩ := runSchedule_law rnds s
  have hsplit := h1 app_id
  have hA := head_segment_order pre mid post _ _ t1 t2 (hq.symm.trans hsplit)
  have hsplit2 : s.queueOf app_id =
      movedFrom app_id
          ((s.runSchedule rnds).1.take (s.queueCapacity - s.execution_queue.length)) ++
        (movedFrom app_id
          ((s.runSchedule rnds).1.drop (s.queueCapacity - s.execution_queue.length)) ++
          (s.runSchedule rnds).2.queueOf app_id) := by
    rw [← List.append_assoc, ← movedFrom_take_drop]
    exact hsplit
  have hB := head_segment_order pre mid post _ _ t1 t2 (hq.symm.trans hsplit2)
  refine ⟨hsplit, hA.1, hA.2, ?_, hB.1⟩
  rw [h2, List.map_take]

/-- An instance of `schedule_fifo`: in `fifoSetup` the queue of "A" holds task 1 ahead of task 2
and "B" holds task 3; three Scheduler iterations with rand() = 1, 0, 0 take
3 from "B", then 1 and 2 from "A", and the ExecutionQueue holds 3, 1, 2. -/
theorem schedule_fifo_witness :
    fifoSetup.queueOf "A" = [] ++ 1 :: ([] ++ 2 :: []) ∧
    (fifoSetup.runSchedule [1, 0, 0]).2.execution_queue = [3, 1, 2] ∧
    movedFrom "A" (fifoSetup.runSchedule [1, 0, 0]).1 = [1, 2] := by
  have h := schedule_fifo fifoSetup "A" [1, 0, 0] [] [] [] 1 2 (by decide)
  refine ⟨by decide, ?_, ?_⟩
  · rw [h.2.2.2.1]
    decide
  · obtain ⟨post1, hp⟩ := h.2.1 (by decide)
    have hlen : (movedFrom "A" (fifoSetup.runSchedule [1, 0, 0]).1).length = 2 := by decide
    rw [hp] at hlen ⊢
    cases post1 with
    | nil => rfl
    | cons x xs => simp at hlen

/-- A round trip with a positive estimate.  Starting from a fresh manager
with queues of positive capacity, for a single ready task enqueued to one app:
the enqueue, one schedule step and one execute step in which the task finishes
with status FINISHED all return, and afterwards exeQueueLength is 0 and the
ExecutionQueue is empty; lobbyWaitTime is 0 provided the task's estimate is
positive (the value subtracted at execute is then the cached value that was
added at enqueue). -/
theorem fresh_round_trip (deltaDelay : Int) (capacity : Nat) (heap : TaskPtr → Task)
    (app_id : String) (task : TaskPtr) (rnd delay_time : Nat)
    (hcap : 0 < capacity)
    (hready : (heap task).isReady = true)
    (hfin : (heap task).onExecute = .finishes .FINISHED) :
    ∃ s, (TaskManager.fresh deltaDelay capacity heap).run
        [.enqueue app_id task, .schedule rnd, .execute delay_time] = some s ∧
      s.exeQueueLength = 0 ∧
      s.execution_queue = [] ∧ (s.heap task).status = .FINISHED ∧
      (0 < ((TaskManager.fresh deltaDelay capacity heap).estimateTime task).1 →
        s.lobbyWaitTime = 0) := by
  have hroom : ((TaskManager.fresh deltaDelay capacity heap).queueOf app_id).length
      < (TaskManager.fresh deltaDelay capacity heap).queueCapacity := by
    simpa [TaskManager.fresh, TaskManager.queueOf, findQueue] using hcap
  have h1 := enqueue_returned _ app_id task hready hroom
  generalize hs0 : TaskManager.fresh deltaDelay capacity heap = s0 at h1 ⊢
  have hq0 : s0.app_queues = [] := by rw [← hs0]; rfl
  have he0 : s0.execution_queue = [] := by rw [← hs0]; rfl
  have hl0 : s0.lobbyWaitTime = 0 := by rw [← hs0]; rfl
  have hx0 : s0.exeQueueLength = 0 := by rw [← hs0]; rfl
  have hc0 : s0.queueCapacity = capacity := by rw [← hs0]; rfl
  have hh0 : s0.heap = heap := by rw [← hs0]; rfl
  have hqs : assignQueue (ensureQueue s0.app_queues app_id) app_id (s0.queueOf app_id ++ [task])
      = [(app_id, [task])] := by
    simp [hq0, ensureQueue, findQueue, insertQueue, assignQueue, TaskManager.queueOf]
  rw [hqs] at h1
  generalize hs1 : ({ (s0.estimateTime task).2 with
      app_queues := [(app_id, [task])]
      lobbyWaitTime := wrapInt (s0.lobbyWaitTime + (s0.estimateTime task).1)
      doorWaitTime := wrapInt (s0.doorWaitTime - (s0.estimateTime task).1) } : TaskManager) = s1 at h1
  have hq1 : s1.app_queues = [(app_id, [task])] := by rw [← hs1]
  have he1 : s1.execution_queue = [] := by
    rw [← hs1]; simp [estimateTime_execution_queue, he0]
  have hl1 : s1.lobbyWaitTime = wrapInt ((s0.estimateTime task).1) := by
    rw [← hs1]; simp [hl0]
  have hx1 : s1.exeQueueLength = 0 := by
    rw [← hs1]; simp [estimateTime_exeQueueLength, hx0]
  have hc1 : s1.queueCapacity = capacity := by
    rw [← hs1]; simp [estimateTime_queueCapacity, hc0]
  have hh1 : s1.heap = (s0.estimateTime task).2.heap := by rw [← hs1]
  have hchoice : s1.scheduleChoice rnd = some (app_id, task) := by
    simp [TaskManager.scheduleChoice, hq1, readyQueues, TaskQueue.empty, Nat.mod_one,
      findQueue, TaskQueue.pop]
  obtain ⟨rest, hf, h2⟩ := schedule_of_choice s1 rnd app_id task hchoice
  have hrest : rest = [] := by
    rw [hq1] at hf
    simpa [findQueue] using hf.symm
  subst hrest
  generalize hs2 : ({ s1 with
      app_queues := assignQueue s1.app_queues app_id []
      execution_queue := (TaskQueue.push s1.queueCapacity s1.execution_queue task).2
      exeQueueLength := wrapInt (s1.exeQueueLength + 1) } : TaskManager) = s2 at h2
  have he2 : s2.execution_queue = task :: [] := by
    rw [← hs2]; simp [TaskQueue.push, he1, hc1, hcap]
  have hl2 : s2.lobbyWaitTime = wrapInt ((s0.estimateTime task).1) := by
    rw [← hs2]; exact hl1
  have hx2 : s2.exeQueueLength = 1 := by
    rw [← hs2]; simp only [hx1]; decide
  have hh2 : s2.heap = (s0.estimateTime task).2.heap := by rw [← hs2]; exact hh1
  have hb2 : (s2.heap task).onExecute = .finishes .FINISHED := by
    rw [hh2, (estimateTime_heap_frame s0 task task).1, hh0, hfin]
  have h3 := execute_normal s2 delay_time task [] .FINISHED he2 hb2
  generalize hs3 : ({ (s2.estimateTime task).2 with
      execution_queue := []
      heap := fun p =>
        if p = task then { (s2.estimateTime task).2.heap task with status := Status.FINISHED }
        else (s2.estimateTime task).2.heap p
      lobbyWaitTime := wrapInt (s2.lobbyWaitTime - (s2.estimateTime task).1)
      exeQueueLength := wrapInt (s2.exeQueueLength - 1) } : TaskManager) = s3 at h3
  have hrun : s0.run [.enqueue app_id task, .schedule rnd, .execute delay_time] = some s3 := by
    simp [TaskManager.run, TaskManager.step, h1, h2, h3, Outcome.next]
  refine ⟨s3, hrun, ?_, ?_, ?_, ?_⟩
  · rw [← hs3]; simp only [hx2]; decide
  · rw [← hs3]
  · rw [← hs3]; simp
  · intro hpos
    have hcached : 0 < (s2.heap task).estimated_time := by
      rw [hh2, estimateTime_stored]; exact hpos
    have hest2 : (s2.estimateTime task).1 = (s0.estimateTime task).1 := by
      rw [estimateTime_cached s2 task hcached, hh2, estimateTime_stored]
    rw [← hs3]
    simp only [hl2, hest2, wrapInt_sub_left, sub_self]
    decide

/-- An instance of `fresh_round_trip`: on `freshHundred`, task 0 (ready, estimate 100, finishes) is
enqueued to "A", scheduled and executed; both counters are 0 afterwards. -/
theorem fresh_round_trip_witness :
    ((0 < 256) ∧ (freshHundred.heap 0).isReady = true ∧
      (freshHundred.heap 0).onExecute = .finishes .FINISHED) ∧
    ∃ s, freshHundred.run [.enqueue "A" 0, .schedule 3, .execute 7] = some s ∧
      s.lobbyWaitTime = 0 ∧ s.exeQueueLength = 0 := by
  obtain ⟨s, h1, h2, _, _, h3⟩ := fresh_round_trip 0 256 freshHundred.heap "A" 0 3 7
    (by decide) (by decide) (by decide)
  exact ⟨⟨by decide, by decide, by decide⟩, s, h1, h3 (by decide), h2⟩

/-! ## Claims -/

/-- C1 (as the code has it): getWaitTime returns the pair (L, L + D) where L is
the current lobbyWaitTime and D is the value doorWaitTime held BEFORE the
task's estimate was added (fetch_add answers the previous value), the sum
being an `int` sum: it wraps around, and is the mathematical L + D whenever
that fits in an `int`.  Afterwards doorWaitTime holds D + estimateTime(task),
again as an `int` sum, and lobbyWaitTime still holds L. -/
theorem getWaitTime_returns_pre_add (s : TaskManager) (task : TaskPtr) :
    (s.getWaitTime task).1 = (s.lobbyWaitTime, wrapInt (s.lobbyWaitTime + s.doorWaitTime)) ∧
    (fitsInt (s.lobbyWaitTime + s.doorWaitTime) →
      (s.getWaitTime task).1 = (s.lobbyWaitTime, s.lobbyWaitTime + s.doorWaitTime)) ∧
    (s.getWaitTime task).2.doorWaitTime = wrapInt (s.doorWaitTime + (s.estimateTime task).1) ∧
    (fitsInt (s.doorWaitTime + (s.estimateTime task).1) →
      (s.getWaitTime task).2.doorWaitTime = s.doorWaitTime + (s.estimateTime task).1) ∧
    (s.getWaitTime task).2.lobbyWaitTime = s.lobbyWaitTime := by
  obtain ⟨h1, h2, h3⟩ := getWaitTime_value s task
  refine ⟨h1, ?_, h2, ?_, h3⟩
  · intro hf
    rw [h1, wrapInt_of_fits _ hf]
  · intro hf
    rw [h2, wrapInt_of_fits _ hf]

/-- C1 fails as stated: on a fresh manager and a task whose estimate is 100,
getWaitTime returns (0, 0), which is not lobbyWaitTime paired with
lobbyWaitTime plus the post-add doorWaitTime, (0, 0 + (0 + 100)). -/
theorem getWaitTime_not_post_add :
    (freshHundred.estimateTime 0).1 = 100 ∧
    (freshHundred.getWaitTime 0).1 = (0, 0) ∧
    (freshHundred.getWaitTime 0).1 ≠
      (freshHundred.lobbyWaitTime,
        freshHundred.lobbyWaitTime +
          (freshHundred.doorWaitTime + (freshHundred.estimateTime 0).1)) := by
  decide

/-- C2 (as the code has it): on a fresh manager with queues of positive
capacity, after enqueue of one ready task whose estimate is 100, getWaitTime
on that task returns exactly (100, 0): lobbyWaitTime is 100, and doorWaitTime,
which enqueue lowered to -100, is read before the query adds to it. -/
theorem fresh_enqueue_getWaitTime (deltaDelay : Int) (capacity : Nat) (heap : TaskPtr → Task)
    (app_id : String) (task : TaskPtr)
    (hcap : 0 < capacity)
    (hready : (heap task).isReady = true)
    (hest : ((TaskManager.fresh deltaDelay capacity heap).estimateTime task).1 = 100) :
    ∃ s1, (TaskManager.fresh deltaDelay capacity heap).enqueue app_id task = .returned s1 ∧
      (s1.getWaitTime task).1 = (100, 0) := by
  have hroom : ((TaskManager.fresh deltaDelay capacity heap).queueOf app_id).length
      < (TaskManager.fresh deltaDelay capacity heap).queueCapacity := by
    simpa [TaskManager.fresh, TaskManager.queueOf, findQueue] using hcap
  refine ⟨_, enqueue_returned _ app_id task hready hroom, ?_⟩
  rw [(getWaitTime_value _ task).1, hest]
  simp only [TaskManager.fresh, Prod.mk.injEq]
  decide

/-- C2 witness: the scenario on the concrete fresh manager and application "A". -/
theorem fresh_enqueue_getWaitTime_witness :
    (0 < 256 ∧ (freshHundred.heap 0).isReady = true ∧ (freshHundred.estimateTime 0).1 = 100) ∧
    ∃ s1, freshHundred.enqueue "A" 0 = .returned s1 ∧ (s1.getWaitTime 0).1 = (100, 0) :=
  ⟨by decide, fresh_enqueue_getWaitTime 0 256 freshHundred.heap "A" 0
    (by decide) (by decide) (by decide)⟩

/-- C2 fails as stated: on the concrete fresh manager, after enqueue("A", t)
of a ready task with estimate 100, getWaitTime(t) returns (100, 0), not
(100, 200). -/
theorem fresh_enqueue_getWaitTime_not_200 :
    ((freshHundred.enqueue "A" 0).next.map (fun s1 => (s1.getWaitTime 0).1)) = some (100, 0) ∧
    ((freshHundred.enqueue "A" 0).next.map (fun s1 => (s1.getWaitTime 0).1)) ≠ some (100, 200) := by
  decide

/-- C3, evaluated where the code departs from it: a ready task with estimate
100 whose execution routine raises a `std::runtime_error` is enqueued and
scheduled on a fresh manager, leaving lobbyWaitTime = 100 and
exeQueueLength = 1; the execute() that pops it returns with the
ExecutionQueue empty and with lobbyWaitTime still 100 and exeQueueLength
still 1: neither counter was decreased. -/
theorem execute_raise_keeps_counters :
    (freshRaising.run [.enqueue "A" 0, .schedule 0]).map TaskManager.summary
      = some ([("A", [])], [0], 1, 100, -100) ∧
    (freshRaising.run [.enqueue "A" 0, .schedule 0, .execute 7]).map TaskManager.summary
      = some ([("A", [])], [], 1, 100, -100) :=
  ⟨by decide, by decide⟩

/-- C4: enqueue of a task whose isReady() is false leaves by the exception
"Cannot enqueue task that is not ready" in the very state it was called in
(the queue map, both wait-time counters and every task, the estimated_time
of this one included, are as before, so no AppQueue was created); and when
isReady() is true enqueue does not leave by an exception at all. -/
theorem enqueue_not_ready_throws (s : TaskManager) (app_id : String) (task : TaskPtr) :
    ((s.heap task).isReady = false →
      s.enqueue app_id task = .threw "Cannot enqueue task that is not ready" s) ∧
    ((s.heap task).isReady = true →
      ∀ what s1, s.enqueue app_id task ≠ .threw what s1) := by
  constructor
  · intro h
    simp [TaskManager.enqueue, h]
  · intro h what s1
    unfold TaskManager.enqueue
    simp only [h, Bool.not_true, Bool.false_eq_true, if_false]
    split <;> simp

/-- C5, evaluated where the code departs from it: the test for "already
stored" is estimated_time > 0, so a stored estimate that is not positive is
not found again.  With deltaDelay = -10 and an unestimated task whose own
routine answers 5 on its first call and 7 on its second, the first
estimateTime returns -5 and stores it, and the second asks the task's routine
again and returns -3.  With deltaDelay = 1 and an unestimated task whose own
routine answers 2147483647 and then 2147483646, the first estimateTime returns
and stores -2147483648 (the `int` sum wraps around), and the second returns
2147483647. -/
theorem estimateTime_twice_differs :
    (freshNegative.estimateTime 0).1 = -5 ∧
    ((freshNegative.estimateTime 0).2.heap 0).estimated_time = -5 ∧
    ((freshNegative.estimateTime 0).2.estimateTime 0).1 = -3 ∧
    (freshEdgeDown.estimateTime 0).1 = -2147483648 ∧
    ((freshEdgeDown.estimateTime 0).2.heap 0).estimated_time = -2147483648 ∧
    ((freshEdgeDown.estimateTime 0).2.estimateTime 0).1 = 2147483647 := by
  decide

/-- C6 (as the code has it): a positive cached estimate is returned with the
state unchanged (the task's own routine is not consulted); otherwise, with d
the answer of the task's own routine, the result is 100000 when d is at most
0 and the `int` sum d + deltaDelay when d is positive, and estimated_time
holds the returned value afterwards.  The `int` sum wraps around; whenever
d + deltaDelay fits in an `int` (and in the two other cases) estimateTime
agrees with the reference definition, in the value returned and in the task
left at the task's address, all else untouched. -/
theorem estimateTime_eq_estimateSpec (s : TaskManager) (task : TaskPtr) :
    (0 < (s.heap task).estimated_time →
      s.estimateTime task = ((s.heap task).estimated_time, s)) ∧
    ((s.heap task).estimated_time ≤ 0 →
      (((s.heap task).estimateTime.1 ≤ 0 → (s.estimateTime task).1 = 100000) ∧
       (0 < (s.heap task).estimateTime.1 →
         (s.estimateTime task).1 = wrapInt ((s.heap task).estimateTime.1 + s.deltaDelay)) ∧
       ((s.estimateTime task).2.heap task).estimated_time = (s.estimateTime task).1)) ∧
    ((0 < (s.heap task).estimated_time ∨ (s.heap task).estimateTime.1 ≤ 0 ∨
        fitsInt ((s.heap task).estimateTime.1 + s.deltaDelay)) →
      s.estimateTime task =
        ((estimateSpec s.deltaDelay (s.heap task)).1,
          s.store task (estimateSpec s.deltaDelay (s.heap task)).2)) := by
  refine ⟨?_, ?_, ?_⟩
  · intro hc
    exact estimateTime_cached s task hc
  · intro hc
    have hc2 : ¬ 0 < (s.heap task).estimated_time := by omega
    unfold TaskManager.estimateTime
    simp only [gt_iff_lt, hc2, if_false]
    refine ⟨?_, ?_, ?_⟩
    · intro hd; simp [hd]
    · intro hd
      have : ¬ (s.heap task).estimateTime.1 ≤ 0 := by omega
      simp [this]
    · simp [TaskManager.store]
  · intro h
    unfold TaskManager.estimateTime estimateSpec
    by_cases hc : 0 < (s.heap task).estimated_time
    · simp [hc, store_heap_self]
    · simp only [gt_iff_lt, hc, if_false]
      by_cases hd : (s.heap task).estimateTime.1 ≤ 0
      · simp [hd]
      · have hf : fitsInt ((s.heap task).estimateTime.1 + s.deltaDelay) := by
          rcases h with h | h | h
          · exact absurd h hc
          · exact absurd h hd
          · exact h
        simp [hd, wrapInt_of_fits _ hf]

/-- C6 fails as stated: with deltaDelay = 1 and an unestimated task whose own
routine answers d = 2147483647, estimateTime returns -2147483648, while the
reference definition gives d + deltaDelay = 2147483648. -/
theorem estimateTime_wraps :
    (freshEdge.heap 0).estimated_time = 0 ∧
    (freshEdge.heap 0).estimateTime.1 = 2147483647 ∧
    freshEdge.deltaDelay = 1 ∧
    (freshEdge.estimateTime 0).1 = -2147483648 ∧
    (estimateSpec freshEdge.deltaDelay (freshEdge.heap 0)).1 = 2147483648 := by
  decide

/-- C7 (as the code has it): for a ready task and a target AppQueue that is
not full, enqueue returns, having added e = estimateTime(task) to
lobbyWaitTime and subtracted it from doorWaitTime by fetch_add and fetch_sub:
the counters wrap around, and move by exactly e whenever the new value fits in
an `int`.  The task is at the tail of the queue of app_id (a queue that did
not exist is created and holds just the task); every other AppQueue, the
ExecutionQueue and exeQueueLength are unchanged. -/
theorem enqueue_effect (s : TaskManager) (app_id : String) (task : TaskPtr)
    (hready : (s.heap task).isReady = true)
    (hroom : (s.queueOf app_id).length < s.queueCapacity) :
    ∃ s1, s.enqueue app_id task = .returned s1 ∧
      s1.lobbyWaitTime = wrapInt (s.lobbyWaitTime + (s.estimateTime task).1) ∧
      s1.doorWaitTime = wrapInt (s.doorWaitTime - (s.estimateTime task).1) ∧
      (fitsInt (s.lobbyWaitTime + (s.estimateTime task).1) →
        s1.lobbyWaitTime = s.lobbyWaitTime + (s.estimateTime task).1) ∧
      (fitsInt (s.doorWaitTime - (s.estimateTime task).1) →
        s1.doorWaitTime = s.doorWaitTime - (s.estimateTime task).1) ∧
      findQueue s1.app_queues app_id = some (s.queueOf app_id ++ [task]) ∧
      (∀ k, k ≠ app_id → findQueue s1.app_queues k = findQueue s.app_queues k) ∧
      s1.execution_queue = s.execution_queue ∧
      s1.exeQueueLength = s.exeQueueLength := by
  refine ⟨_, enqueue_returned s app_id task hready hroom, rfl, rfl, ?_, ?_, ?_, ?_, ?_, ?_⟩
  · intro hf
    exact wrapInt_of_fits _ hf
  · intro hf
    exact wrapInt_of_fits _ hf
  · exact findQueue_assignQueue_self _ app_id _ _ (findQueue_ensureQueue_self s.app_queues app_id)
  · intro k hk
    show findQueue (assignQueue (ensureQueue s.app_queues app_id) app_id _) k = _
    rw [findQueue_assignQueue_other _ app_id k _ hk, findQueue_ensureQueue_other _ app_id k hk]
  · exact estimateTime_execution_queue s task
  · exact estimateTime_exeQueueLength s task

/-- C7 witness: on `failureSetup`, where "B" holds task 1, enqueue("B", 2)
returns with "B" holding tasks 1 and 2, "A" as before, lobbyWaitTime 200. -/
theorem enqueue_effect_witness :
    ((failureSetup.heap 2).isReady = true ∧
      (failureSetup.queueOf "B").length < failureSetup.queueCapacity) ∧
    ∃ s1, failureSetup.enqueue "B" 2 = .returned s1 ∧
      s1.lobbyWaitTime = 200 ∧
      findQueue s1.app_queues "B" = some [1, 2] ∧
      findQueue s1.app_queues "A" = some [] := by
  obtain ⟨s1, h1, _, _, h2, _, h4, h5, _, _⟩ :=
    enqueue_effect failureSetup "B" 2 (by decide) (by decide)
  refine ⟨⟨by decide, by decide⟩, s1, h1, ?_, ?_, ?_⟩
  · rw [h2 (by decide)]; decide
  · rw [h4]; decide
  · rw [h5 "A" (by decide)]; decide

/-- C7 fails as stated: on a fresh manager over tasks with estimate
2000000000, after enqueue("A", task 1) lobbyWaitTime is 2000000000;
enqueue("A", task 2) then leaves lobbyWaitTime at -294967296, not at
2000000000 + 2000000000. -/
theorem enqueue_wraps_lobby :
    (freshBig.run [.enqueue "A" 1]).map (fun s => (s.lobbyWaitTime, (s.estimateTime 2).1))
      = some (2000000000, 2000000000) ∧
    (freshBig.run [.enqueue "A" 1, .enqueue "A" 2]).map (fun s => s.lobbyWaitTime)
      = some (-294967296) :=
  ⟨by decide, by decide⟩

/-- C8, evaluated where the code departs from it: on a fresh manager a ready
task whose execution routine raises a `std::runtime_error` is enqueued,
scheduled and executed; in the state reached the ExecutionQueue holds 0 tasks
while getExeQueueLength() answers 1. -/
theorem getExeQueueLength_after_raise :
    (freshRaising.run [.enqueue "A" 0, .schedule 0, .execute 7]).map
      (fun s => (s.getExeQueueLength, s.execution_queue.length)) = some (1, 0) := by
  decide

/-- C9: when the execution routine of the task popped by execute() raises a
runtime failure, execute() returns normally; the failed task is gone from the
ExecutionQueue, whose remaining contents, like all AppQueues, are unchanged.
Afterwards the executor serves healthy tasks as usual: after a later schedule
step, if a healthy task (one whose routine returns normally) heads the
ExecutionQueue, the next execute() pops it and runs it to the status its
routine leaves; and when the failed task was
alone in an ExecutionQueue of positive capacity, the task heading the queue
is the very task that schedule step selected. -/
theorem execute_isolates_failure (s : TaskManager) (delay_time : Nat)
    (task : TaskPtr) (rest : TaskQueue)
    (hq : s.execution_queue = task :: rest)
    (hb : (s.heap task).onExecute = .raisesRuntime) :
    ∃ s1, s.execute delay_time = .returned s1 ∧
      s1.execution_queue = rest ∧
      s1.app_queues = s.app_queues ∧
      (∀ rnd s2 healthy rest2 st delay2,
        s1.schedule rnd = .returned s2 →
        s2.execution_queue = healthy :: rest2 →
        (s.heap healthy).onExecute = .finishes st →
        ∃ s3, s2.execute delay2 = .returned s3 ∧
          s3.execution_queue = rest2 ∧ (s3.heap healthy).status = st) ∧
      (∀ rnd app healthy,
        rest = [] → 0 < s.queueCapacity →
        s1.scheduleChoice rnd = some (app, healthy) →
        ∃ s2, s1.schedule rnd = .returned s2 ∧ s2.execution_queue = [healthy]) := by
  refine ⟨_, execute_raise s delay_time task rest hq hb, rfl, ?_, ?_, ?_⟩
  · exact estimateTime_app_queues s task
  · intro rnd s2 healthy rest2 st delay2 hs hq2 hb2
    have hheap : s2.heap = (s.estimateTime task).2.heap := by
      rcases schedule_returned _ s2 rnd hs with ⟨_, h⟩ | ⟨_, _, _, _, _, h⟩ <;> rw [h]
    have hb3 : (s2.heap healthy).onExecute = .finishes st := by
      rw [hheap, (estimateTime_heap_frame s task healthy).1, hb2]
    refine ⟨_, execute_normal s2 delay2 healthy rest2 st hq2 hb3, rfl, ?_⟩
    simp
  · intro rnd app healthy hrest hcap hc
    obtain ⟨rest1, _, hs⟩ := schedule_of_choice _ rnd app healthy hc
    refine ⟨_, hs, ?_⟩
    subst hrest
    simp [TaskQueue.push, estimateTime_queueCapacity, hcap]

/-- C9 witness: on `failureSetup` the raising task 0 heads the ExecutionQueue
and the healthy task 1 waits in "B"; execute returns, the ExecutionQueue is
empty, the queues are as before, the next schedule moves task 1 and the next
execute runs it to FINISHED. -/
theorem execute_isolates_failure_witness :
    (failureSetup.execution_queue = 0 :: [] ∧
      (failureSetup.heap 0).onExecute = .raisesRuntime) ∧
    ∃ s1 s2 s3, failureSetup.execute 7 = .returned s1 ∧
      s1.execution_queue = [] ∧ s1.app_queues = failureSetup.app_queues ∧
      s1.schedule 0 = .returned s2 ∧ s2.execution_queue = [1] ∧
      s2.execute 9 = .returned s3 ∧ s3.execution_queue = [] ∧
      (s3.heap 1).status = .FINISHED := by
  obtain ⟨s1, h1, h2, h3, h4, h5⟩ :=
    execute_isolates_failure failureSetup 7 0 [] (by decide) (by decide)
  have hc : s1.scheduleChoice 0 = some ("B", 1) := by
    have := Outcome.returned.inj ((execute_raise failureSetup 7 0 [] (by decide) (by decide)).symm.trans h1)
    rw [← this]
    decide
  obtain ⟨s2, h6, h7⟩ := h5 0 "B" 1 rfl (by decide) hc
  obtain ⟨s3, h8, h9, h10⟩ := h4 0 s2 1 [] .FINISHED 9 h6 h7 (by decide)
  exact ⟨⟨by decide, by decide⟩, s1, s2, s3, h1, h2, h3, h6, h7, h8, h9, h10⟩

/-- C10, evaluated where the code departs from it: on a manager with queues of
capacity 2 over ready tasks that finish, tasks 10 and 11 are enqueued to "B"
and scheduled, filling the ExecutionQueue; task 1 and then task 2 are enqueued
to "A".  The next schedule pops task 1 from "A" while the ExecutionQueue is
full, and the task is lost; after one execute the next schedule moves task 2
into the ExecutionQueue, and two more executes run tasks 11 and 2.  At the end
task 2, enqueued after task 1 to the same app, is FINISHED, while task 1 is in
no queue and was never executed. -/
theorem later_task_overtakes_dropped :
    (freshPair.run [.enqueue "B" 10, .enqueue "B" 11, .schedule 0, .schedule 0,
        .enqueue "A" 1, .enqueue "A" 2]).map TaskManager.summary
      = some ([("A", [1, 2]), ("B", [])], [10, 11], 2, 400, -400) ∧
    (freshPair.run [.enqueue "B" 10, .enqueue "B" 11, .schedule 0, .schedule 0,
        .enqueue "A" 1, .enqueue "A" 2, .schedule 0]).map TaskManager.summary
      = some ([("A", [2]), ("B", [])], [10, 11], 3, 400, -400) ∧
    (freshPair.run [.enqueue "B" 10, .enqueue "B" 11, .schedule 0, .schedule 0,
        .enqueue "A" 1, .enqueue "A" 2, .schedule 0, .execute 5, .schedule 0]).map
        TaskManager.summary
      = some ([("A", []), ("B", [])], [11, 2], 3, 300, -400) ∧
    (freshPair.run [.enqueue "B" 10, .enqueue "B" 11, .schedule 0, .schedule 0,
        .enqueue "A" 1, .enqueue "A" 2, .schedule 0, .execute 5, .schedule 0,
        .execute 5, .execute 5]).map
        (fun s => (s.held, (s.heap 1).status, (s.heap 2).status))
      = some ([], Status.READY, Status.FINISHED) :=
  ⟨by decide, by decide, by decide, by decide⟩

/-- C11, evaluated where the code departs from it: on a fresh manager with
deltaDelay -10, a ready unestimated task whose own routine answers 5 and then
7 is enqueued (estimate -5, stored but not found again by the test
estimated_time > 0), scheduled and executed to FINISHED (estimate recomputed as
-3 instead of the recorded one); exeQueueLength ends at 0 but lobbyWaitTime
ends at -2, not 0.  Likewise with deltaDelay 1 and a task whose own routine
answers 2147483647 and then 2147483646: the estimate stored at enqueue is
-2147483648, the one recomputed at execute is 2147483647, and lobbyWaitTime
ends at 1. -/
theorem fresh_round_trip_negative :
    (freshNegative.run [.enqueue "A" 0]).map
      (fun s => (s.lobbyWaitTime, (s.heap 0).estimated_time)) = some (-5, -5) ∧
    (freshNegative.run [.enqueue "A" 0, .schedule 0, .execute 7]).map
      (fun s => (s.lobbyWaitTime, s.exeQueueLength, (s.heap 0).status))
      = some (-2, 0, Status.FINISHED) ∧
    (freshEdgeDown.run [.enqueue "A" 0]).map
      (fun s => (s.lobbyWaitTime, (s.heap 0).estimated_time))
      = some (-2147483648, -2147483648) ∧
    (freshEdgeDown.run [.enqueue "A" 0, .schedule 0, .execute 7]).map
      (fun s => (s.lobbyWaitTime, s.exeQueueLength, (s.heap 0).status))
      = some (1, 0, Status.FINISHED) :=
  ⟨by decide, by decide, by decide, by decide⟩

/-- C12 (as the code has it): in every state reachable from a fresh manager
by returning enqueue, getWaitTime, schedule and execute calls none of which
overflows lobbyWaitTime or exeQueueLength, exeQueueLength >= 0 (it is at least
the length of the ExecutionQueue); and when moreover every estimate computed
along the run is positive, lobbyWaitTime >= 0 (it is at least the sum of the
cached estimates of the tasks held). -/
theorem counters_nonnegative (deltaDelay : Int) (capacity : Nat) (heap : TaskPtr → Task)
    (acts : List Action) (s : TaskManager)
    (hrun : (TaskManager.fresh deltaDelay capacity heap).run acts = some s)
    (hfit : (TaskManager.fresh deltaDelay capacity heap).countersFit acts = true) :
    0 ≤ s.exeQueueLength ∧
    (s.execution_queue.length : Int) ≤ s.exeQueueLength ∧
    ((TaskManager.fresh deltaDelay capacity heap).positiveEstimates acts = true →
      0 ≤ s.lobbyWaitTime ∧ s.heldEstimate ≤ s.lobbyWaitTime) := by
  obtain ⟨h1, h2⟩ := run_covers acts _ s hrun hfit
  obtain ⟨hlen, _⟩ := h1 (by simp [TaskManager.fresh]) (by simp [TaskManager.fresh])
  refine ⟨by omega, hlen, ?_⟩
  intro hpos
  obtain ⟨h3, h4, _⟩ := h2 hpos
    (by simp [TaskManager.fresh, TaskManager.held, queuedTasks])
    (by simp [TaskManager.fresh, TaskManager.held, queuedTasks, estimateSum])
    (by simp [TaskManager.fresh])
  have := estimateSum_nonneg s.heap s.held h3
  exact ⟨by omega, h4⟩

/-- C12 witness: on `freshRaising` the raising task 0 and the healthy task 1
are enqueued, quoted, scheduled and executed; no counter overflows, every
estimate is positive, the run returns and both counters are non-negative at
its end. -/
theorem counters_nonnegative_witness :
    (freshRaising.countersFit [.enqueue "A" 0, .getWaitTime 1, .enqueue "B" 1, .schedule 0,
        .execute 7, .schedule 0, .execute 9] = true ∧
      freshRaising.positiveEstimates [.enqueue "A" 0, .getWaitTime 1, .enqueue "B" 1,
        .schedule 0, .execute 7, .schedule 0, .execute 9] = true) ∧
    ∃ s, freshRaising.run [.enqueue "A" 0, .getWaitTime 1, .enqueue "B" 1, .schedule 0,
        .execute 7, .schedule 0, .execute 9] = some s ∧
      0 ≤ s.exeQueueLength ∧ 0 ≤ s.lobbyWaitTime := by
  have hsome : (freshRaising.run [.enqueue "A" 0, .getWaitTime 1, .enqueue "B" 1, .schedule 0,
      .execute 7, .schedule 0, .execute 9]).isSome = true := by decide
  obtain ⟨s, h⟩ := Option.isSome_iff_exists.mp hsome
  obtain ⟨h1, _, h3⟩ := counters_nonnegative 0 256 freshRaising.heap _ s h (by decide)
  exact ⟨⟨by decide, by decide⟩, s, h, h1, (h3 (by decide)).1⟩

/-- C12 fails as stated: on a fresh manager with deltaDelay 0 over ready tasks
with estimate 2000000000 (every computed estimate is positive), two enqueues
leave lobbyWaitTime at -294967296. -/
theorem lobbyWaitTime_negative :
    freshBig.positiveEstimates [.enqueue "A" 1, .enqueue "A" 2] = true ∧
    (freshBig.run [.enqueue "A" 1, .enqueue "A" 2]).map (fun s => s.lobbyWaitTime)
      = some (-294967296) :=
  ⟨by decide, by decide⟩

/-- C14: absent integer wrap-around (nextTaskId is an `int` and stays below
the largest `int` through the calls considered), each create() call gives the
new task the current value of nextTaskId and advances nextTaskId by exactly
1, touching no queue (so also when the task is never enqueued); and in every
sequence of calls, create calls interleaved with any others, the ids assigned
are nextTaskId, nextTaskId + 1, ... in call order: a later id is strictly
greater than an earlier one and no id is assigned twice. -/
theorem create_ids_increase (s : TaskManager) (calls : List Call)
    (hlow : -2147483648 ≤ s.nextTaskId)
    (hhigh : s.nextTaskId + (creates calls : Int) < 2147483647) :
    (∀ made addr env,
      ((s.create made addr env).2.heap (s.create made addr env).1).task_id = s.nextTaskId ∧
      (s.create made addr env).2.nextTaskId = s.nextTaskId + 1 ∧
      (s.create made addr env).2.app_queues = s.app_queues ∧
      (s.create made addr env).2.execution_queue = s.execution_queue) ∧
    s.createLog calls =
      (List.range (s.createLog calls).length).map (fun i : Nat => s.nextTaskId + (i : Int)) ∧
    (s.createLog calls).Pairwise (fun earlier later => earlier < later) ∧
    (s.createLog calls).Nodup := by
  have hcons := createLog_consecutive calls s hlow (by omega)
  have hpair : (s.createLog calls).Pairwise (fun earlier later => earlier < later) := by
    rw [hcons]
    rw [List.pairwise_map]
    refine (List.pairwise_lt_range _).imp ?_
    intro a b hab
    have : (a : Int) < (b : Int) := by exact_mod_cast hab
    omega
  refine ⟨?_, hcons, hpair, ?_⟩
  · intro made addr env
    have hc := create_step s made addr env
    refine ⟨hc.2.1, ?_, rfl, rfl⟩
    rw [hc.2.2]
    apply wrapInt_of_fits
    unfold fitsInt
    omega
  · exact hpair.imp (fun h => ne_of_lt h)

/-- C14 witness: on a fresh manager three create calls, the first followed by
an enqueue of the new task, with the first address reused by the third, assign
the ids 0, 1 and 2. -/
theorem create_ids_increase_witness :
    (-2147483648 ≤ freshNegative.nextTaskId ∧
      freshNegative.nextTaskId +
        (creates [.create (sampleTask 0 0 0 true .raisesRuntime) 5 1,
          .other (.enqueue "A" 5),
          .create (sampleTask 0 0 0 true .raisesRuntime) 6 1,
          .create (sampleTask 0 0 0 true .raisesRuntime) 5 1] : Int) < 2147483647) ∧
    freshNegative.createLog [.create (sampleTask 0 0 0 true .raisesRuntime) 5 1,
        .other (.enqueue "A" 5),
        .create (sampleTask 0 0 0 true .raisesRuntime) 6 1,
        .create (sampleTask 0 0 0 true .raisesRuntime) 5 1] = [0, 1, 2] ∧
    (freshNegative.createLog [.create (sampleTask 0 0 0 true .raisesRuntime) 5 1,
        .other (.enqueue "A" 5),
        .create (sampleTask 0 0 0 true .raisesRuntime) 6 1,
        .create (sampleTask 0 0 0 true .raisesRuntime) 5 1]).Nodup := by
  have h := create_ids_increase freshNegative
    [.create (sampleTask 0 0 0 true .raisesRuntime) 5 1,
      .other (.enqueue "A" 5),
      .create (sampleTask 0 0 0 true .raisesRuntime) 6 1,
      .create (sampleTask 0 0 0 true .raisesRuntime) 5 1] (by decide) (by decide)
  exact ⟨⟨by decide, by decide⟩, by decide, h.2.2.2⟩

/-- C15, where the code departs from it.  In general: whenever schedule
selects a task while the ExecutionQueue is at capacity, it returns with that
task popped from its AppQueue but NOT appended to the ExecutionQueue (the
answer of push is ignored), with exeQueueLength raised by one all the same
(by fetch_add, so wrapping around at the largest `int`), and with one task
fewer held in the queues.  Evaluated: on a manager with
queues of capacity 1, task 1 is enqueued and scheduled and task 2 is
enqueued, so "A" holds task 2, the ExecutionQueue holds task 1 and two tasks
are held; after one more schedule "A" is empty, the ExecutionQueue still
holds only task 1, exeQueueLength is 2 and one task is held. -/
theorem schedule_drops_on_full_queue :
    (∀ (s : TaskManager) (rnd : Nat) (app : String) (t : TaskPtr),
      s.scheduleChoice rnd = some (app, t) →
      s.queueCapacity ≤ s.execution_queue.length →
      ∃ s1 rest, s.schedule rnd = .returned s1 ∧
        findQueue s.app_queues app = some (t :: rest) ∧
        findQueue s1.app_queues app = some rest ∧
        s1.execution_queue = s.execution_queue ∧
        s1.exeQueueLength = (fetch_add s.exeQueueLength 1).2 ∧
        (fitsInt (s.exeQueueLength + 1) → s1.exeQueueLength = s.exeQueueLength + 1) ∧
        s1.held.length + 1 = s.held.length) ∧
    (freshTiny.run [.enqueue "A" 1, .schedule 0, .enqueue "A" 2]).map TaskManager.summary
      = some ([("A", [2])], [1], 1, 200, -200) ∧
    (freshTiny.run [.enqueue "A" 1, .schedule 0, .enqueue "A" 2]).map
        (fun s => s.held.length) = some 2 ∧
    (freshTiny.run [.enqueue "A" 1, .schedule 0, .enqueue "A" 2, .schedule 0]).map
        TaskManager.summary
      = some ([("A", [])], [1], 2, 200, -200) ∧
    (freshTiny.run [.enqueue "A" 1, .schedule 0, .enqueue "A" 2, .schedule 0]).map
        (fun s => s.held.length) = some 1 := by
  refine ⟨?_, by decide, by decide, by decide, by decide⟩
  intro s rnd app t hc hfull
  obtain ⟨rest, hf, hs⟩ := schedule_of_choice s rnd app t hc
  obtain ⟨pre, post, hq, hq2⟩ := queuedTasks_assignQueue _ _ _ hf
  have hnot : ¬ s.execution_queue.length < s.queueCapacity := by omega
  refine ⟨_, rest, hs, hf, ?_, ?_, rfl, ?_, ?_⟩
  · exact findQueue_assignQueue_self _ _ _ _ hf
  · simp [TaskQueue.push, hnot]
  · intro hfits
    exact wrapInt_of_fits _ hfits
  · simp [TaskManager.held, hq, hq2, TaskQueue.push, hnot]
    omega

/-- C16: in a state whose map has distinct keys (the invariant of std::map,
kept by every call) and in which the scan found a non-empty queue, the
selection is safe for every value of rand(): the modulus is non-zero, the
index is within the bounds of ready_queues, the key read there is a key of
app_queues whose queue is non-empty, and schedule returns having moved the
head of that queue (neither the "Did not find app_queue" return nor a pop
from an empty queue happens). -/
theorem schedule_selection_safe (s : TaskManager) (rnd : Nat)
    (hkeys : keysDistinct s.app_queues = true)
    (hscan : readyQueues s.app_queues ≠ []) :
    (readyQueues s.app_queues).length ≠ 0 ∧
    rnd % (readyQueues s.app_queues).length < (readyQueues s.app_queues).length ∧
    ∃ app t rest,
      (readyQueues s.app_queues)[rnd % (readyQueues s.app_queues).length]? = some app ∧
      findQueue s.app_queues app = some (t :: rest) ∧
      TaskQueue.pop (t :: rest) = some (t, rest) ∧
      s.schedule rnd = .returned
        { s with
          app_queues := assignQueue s.app_queues app rest
          execution_queue := (TaskQueue.push s.queueCapacity s.execution_queue t).2
          exeQueueLength := wrapInt (s.exeQueueLength + 1) } := by
  have hlen : 0 < (readyQueues s.app_queues).length := List.length_pos.mpr hscan
  have hidx : rnd % (readyQueues s.app_queues).length < (readyQueues s.app_queues).length :=
    Nat.mod_lt _ hlen
  have hget : (readyQueues s.app_queues)[rnd % (readyQueues s.app_queues).length]? =
      some ((readyQueues s.app_queues)[rnd % (readyQueues s.app_queues).length]) :=
    List.getElem?_eq_getElem hidx
  have hmem : (readyQueues s.app_queues)[rnd % (readyQueues s.app_queues).length]
      ∈ readyQueues s.app_queues := List.getElem_mem hidx
  obtain ⟨t, rest, hf⟩ := findQueue_of_ready s.app_queues _
    ((keysDistinct_iff s.app_queues).mp hkeys) hmem
  have hchoice : s.scheduleChoice rnd =
      some ((readyQueues s.app_queues)[rnd % (readyQueues s.app_queues).length], t) := by
    simp [TaskManager.scheduleChoice, hget, hf, TaskQueue.pop]
  obtain ⟨rest2, hf2, hs⟩ := schedule_of_choice s rnd _ t hchoice
  have hrest : rest2 = rest := by
    rw [hf] at hf2
    simpa using hf2.symm
  subst hrest
  exact ⟨Nat.pos_iff_ne_zero.mp hlen, hidx, _, t, rest2, hget, hf, rfl, hs⟩

/-- C16 witness: in `fifoSetup` ("A" holds 1 and 2, "B" holds 3) rand() = 7
selects index 1, the key "B", and schedule returns with task 3 moved. -/
theorem schedule_selection_safe_witness :
    (keysDistinct fifoSetup.app_queues = true ∧ readyQueues fifoSetup.app_queues ≠ []) ∧
    (readyQueues fifoSetup.app_queues).length ≠ 0 ∧
    7 % (readyQueues fifoSetup.app_queues).length < (readyQueues fifoSetup.app_queues).length ∧
    ∃ s1, fifoSetup.schedule 7 = .returned s1 ∧ s1.execution_queue = [3] := by
  obtain ⟨h1, h2, app, t, rest, hget, hf, _, hs⟩ :=
    schedule_selection_safe fifoSetup 7 (by decide) (by decide)
  refine ⟨⟨by decide, by decide⟩, h1, h2, _, hs, ?_⟩
  have happ : app = "B" := by
    have h : (readyQueues fifoSetup.app_queues)[7 % (readyQueues fifoSetup.app_queues).length]?
        = some "B" := by decide
    rw [h] at hget
    exact (Option.some.inj hget).symm
  subst happ
  have ht : t = 3 := by
    have h : findQueue fifoSetup.app_queues "B" = some [3] := by decide
    rw [h] at hf
    simp only [Option.some.injEq, List.cons.injEq] at hf
    exact hf.1.symm
  subst ht
  show (TaskQueue.push fifoSetup.queueCapacity fifoSetup.execution_queue 3).2 = [3]
  decide

/-- C17, evaluated where the code departs from it: on a manager with queues of
capacity 1 over ready tasks with estimate 100 that finish, task 1 is enqueued
and scheduled, task 2 is enqueued and scheduled while the ExecutionQueue is
full.  No execution routine ran, every computed estimate was positive, the
only task held is task 1 with cached estimate 100, and lobbyWaitTime is
200. -/
theorem lobbyWaitTime_after_drop :
    freshTiny.positiveEstimates
      [.enqueue "A" 1, .schedule 0, .enqueue "A" 2, .schedule 0] = true ∧
    (freshTiny.run [.enqueue "A" 1, .schedule 0, .enqueue "A" 2, .schedule 0]).map
        (fun s => (s.held, s.heldEstimate, s.lobbyWaitTime))
      = some ([1], 100, 200) :=
  ⟨by decide, by decide⟩

/-- C18 (as the code has it): for a ready task whose estimate e is positive
and a target AppQueue that is not full, getWaitTime(t) followed by
enqueue(app_id, t) returns with doorWaitTime back at the `int` it held before
the getWaitTime call, and with e added to lobbyWaitTime by fetch_add (the
counter wraps around, and is higher by exactly e whenever the new value fits
in an `int`); and enqueue alone, however it ends, leaves the sum
lobbyWaitTime + doorWaitTime unchanged modulo 2^32, and exactly unchanged
whenever neither counter update wraps around. -/
theorem quote_then_submit (s : TaskManager) (app_id : String) (task : TaskPtr)
    (hready : (s.heap task).isReady = true)
    (hpos : 0 < (s.estimateTime task).1)
    (hroom : (s.queueOf app_id).length < s.queueCapacity) :
    (∃ s2, (s.getWaitTime task).2.enqueue app_id task = .returned s2 ∧
      s2.doorWaitTime = wrapInt s.doorWaitTime ∧
      (fitsInt s.doorWaitTime → s2.doorWaitTime = s.doorWaitTime) ∧
      s2.lobbyWaitTime = wrapInt (s.lobbyWaitTime + (s.estimateTime task).1) ∧
      (fitsInt (s.lobbyWaitTime + (s.estimateTime task).1) →
        s2.lobbyWaitTime = s.lobbyWaitTime + (s.estimateTime task).1)) ∧
    (∀ (app2 : String) (task2 : TaskPtr) (what : String) (s1 : TaskManager),
      (s.enqueue app2 task2 = .returned s1 ∨ s.enqueue app2 task2 = .threw what s1 ∨
        s.enqueue app2 task2 = .blocked s1) →
      wrapInt (s1.lobbyWaitTime + s1.doorWaitTime)
        = wrapInt (s.lobbyWaitTime + s.doorWaitTime) ∧
      (fitsInt (s.lobbyWaitTime + (s.estimateTime task2).1) →
        fitsInt (s.doorWaitTime - (s.estimateTime task2).1) →
        s1.lobbyWaitTime + s1.doorWaitTime = s.lobbyWaitTime + s.doorWaitTime)) := by
  constructor
  · have hst := getWaitTime_state s task
    have hready2 : (((s.getWaitTime task).2).heap task).isReady = true := by
      rw [hst]
      have := (estimateTime_heap_frame s task task).2.1
      simpa [Task.isReady, this] using hready
    have hroom2 : ((s.getWaitTime task).2.queueOf app_id).length
        < (s.getWaitTime task).2.queueCapacity := by
      rw [hst]
      simpa [TaskManager.queueOf, estimateTime_app_queues, estimateTime_queueCapacity]
        using hroom
    have hdoor : wrapInt ((s.getWaitTime task).2.doorWaitTime
        - ((s.getWaitTime task).2.estimateTime task).1) = wrapInt s.doorWaitTime := by
      rw [estimateTime_after_getWaitTime s task hpos, hst]
      show wrapInt (wrapInt (s.doorWaitTime + (s.estimateTime task).1)
        - (s.estimateTime task).1) = _
      rw [wrapInt_sub_left]
      congr 1
      ring
    have hlobby : wrapInt ((s.getWaitTime task).2.lobbyWaitTime
        + ((s.getWaitTime task).2.estimateTime task).1)
        = wrapInt (s.lobbyWaitTime + (s.estimateTime task).1) := by
      rw [estimateTime_after_getWaitTime s task hpos, hst]
      show wrapInt ((s.estimateTime task).2.lobbyWaitTime + _) = _
      rw [estimateTime_lobby]
    refine ⟨_, enqueue_returned _ app_id task hready2 hroom2, hdoor, ?_, hlobby, ?_⟩
    · intro hf
      show wrapInt _ = _
      rw [hdoor, wrapInt_of_fits _ hf]
    · intro hf
      show wrapInt _ = _
      rw [hlobby, wrapInt_of_fits _ hf]
  · intro app2 task2 what s1 h
    exact enqueue_sum s s1 app2 task2 what h

/-- C18 witness: on `fifoSetup` (lobbyWaitTime 300, doorWaitTime -300) the
ready task 4 with estimate 100 is quoted and then enqueued to "B": the door
counter is back at -300 and the lobby counter is at 400. -/
theorem quote_then_submit_witness :
    ((fifoSetup.heap 4).isReady = true ∧ 0 < (fifoSetup.estimateTime 4).1 ∧
      (fifoSetup.queueOf "B").length < fifoSetup.queueCapacity) ∧
    ∃ s2, (fifoSetup.getWaitTime 4).2.enqueue "B" 4 = .returned s2 ∧
      s2.doorWaitTime = -300 ∧ s2.lobbyWaitTime = 400 := by
  obtain ⟨⟨s2, h1, _, h2, _, h3⟩, _⟩ :=
    quote_then_submit fifoSetup "B" 4 (by decide) (by decide) (by decide)
  refine ⟨⟨by decide, by decide, by decide⟩, s2, h1, ?_, ?_⟩
  · rw [h2 (by decide)]; decide
  · rw [h3 (by decide)]; decide

/-- C18 fails as stated: on a fresh manager over tasks with estimate
2000000000, task 1 is quoted and enqueued, leaving lobbyWaitTime 2000000000
and doorWaitTime 0.  Quoting and enqueueing task 2 then leaves doorWaitTime at
0 but lobbyWaitTime at -294967296, not 2000000000 higher; and enqueue alone of
task 2 leaves lobbyWaitTime + doorWaitTime at -294967296 + -2000000000, not at
2000000000 + 0. -/
theorem quote_then_submit_wraps :
    (freshBig.run [.getWaitTime 1, .enqueue "A" 1]).map
      (fun s => (s.lobbyWaitTime, s.doorWaitTime, (s.estimateTime 2).1))
      = some (2000000000, 0, 2000000000) ∧
    (freshBig.run [.getWaitTime 1, .enqueue "A" 1, .getWaitTime 2, .enqueue "A" 2]).map
      (fun s => (s.lobbyWaitTime, s.doorWaitTime)) = some (-294967296, 0) ∧
    (freshBig.run [.getWaitTime 1, .enqueue "A" 1, .enqueue "A" 2]).map
      (fun s => (s.lobbyWaitTime, s.doorWaitTime)) = some (-294967296, -2000000000) :=
  ⟨by decide, by decide, by decide⟩

end blaze
